/-
Verification of the timesheet MCP server (timesheetIO/timesheet-mcp).

This file gives a shallow embedding, in Lean 4, of the parts of the server
relevant to the statistics aggregator, the tool dispatcher, and the error
handling paths, and proves or refutes the spec claims about them.

Modelling conventions:
* Seconds are natural numbers; hours are rationals.  The source works with
  IEEE doubles and `Number(x.toFixed(2))`; we model that rounding as exact
  rational rounding to two decimals (`round (q * 100) / 100`, round half up,
  matching `Math.round` and `toFixed` on the values arising here).
* Calendar dates (`YYYY-MM-DD` strings in the source) are modelled as epoch
  day numbers (`Int`, day 0 = 1970-01-01, a Thursday).  Lexicographic order
  on well-formed ISO date strings coincides with the numeric order of day
  numbers, `substring(0, 10)` of an ISO timestamp is the date part (stored
  directly in the task model), adding one calendar day is `+ 1`, and
  `Math.round((end - start) / 86400000) + 1` is `end - start + 1`.
* JavaScript `Map` objects are modelled as association lists in insertion
  order; `Map.get`/`Map.set` on an existing key update the first (and, by
  the maintained key-uniqueness, only) entry in place, and `Map.set` on a
  fresh key appends.  `Array.from(map.entries())` is the list itself.
* `Array.prototype.sort` (stable since ES2019) with comparator `cmp` is
  modelled by `List.insertionSort r` where `r a b` means `cmp a b ≤ 0`;
  both produce the unique stable sort.
* Promises are modelled by `Except ApiErr`; `await` on a rejected promise
  inside `try` transfers control to `catch`.
-/
import Mathlib

set_option linter.unusedVariables false

namespace Timesheet

/-! ### JavaScript primitives -/

/-- JavaScript `a || b` for string-valued `a` that may be `undefined`/`null`
(`none`) or empty (both falsy). -/
def jsOrS (a : Option String) (b : String) : String :=
  match a with
  | none => b
  | some s => if s = "" then b else s

/-- JavaScript `Number(q.toFixed(2))`, modelled as exact rational rounding
to two decimal places (round half up, as `toFixed` on the magnitudes
arising here). -/
def toFixed2 (q : ℚ) : ℚ :=
  (round (q * 100) : ℚ) / 100

/-- JavaScript `Date.prototype.getDay` on an epoch day number:
0 = Sunday, …, 6 = Saturday.  Day 0 (1970-01-01) was a Thursday. -/
def getDay (d : Int) : Int :=
  (d + 4) % 7

/-! ### Association lists modelling JavaScript `Map` (insertion order) -/

/-- `Map.get k`: value of the first entry with key `k`. -/
def lookupA {κ β : Type} [DecidableEq κ] (m : List (κ × β)) (k : κ) : Option β :=
  match m with
  | [] => none
  | (k₀, v₀) :: rest => if k₀ = k then some v₀ else lookupA rest k

/-- `Map.set k (f old)` on an existing key: update the first entry with key
`k` in place (insertion position preserved). -/
def updateA {κ β : Type} [DecidableEq κ] (m : List (κ × β)) (k : κ) (f : β → β) :
    List (κ × β) :=
  match m with
  | [] => []
  | (k₀, v₀) :: rest => if k₀ = k then (k₀, f v₀) :: rest else (k₀, v₀) :: updateA rest k f

/-- `Map.has k`. -/
def hasKeyA {κ β : Type} [DecidableEq κ] (m : List (κ × β)) (k : κ) : Bool :=
  (lookupA m k).isSome

/-- Position of the first entry with key `k` (used to state insertion-order
stability of the project sort). -/
def idxOfKey {β : Type} (m : List (String × β)) (k : String) : Nat :=
  match m with
  | [] => 0
  | (k₀, _) :: rest => if k₀ = k then 0 else idxOfKey rest k + 1

/-! ### Data model: tasks as consumed by `computeStatistics` -/

/-- The `task.project` object: the fields read by `computeStatistics`. -/
structure Project where
  id : Option String
  title : Option String
  color : Option Int
deriving Repr, DecidableEq

/-- A task record as consumed by `computeStatistics` (fields the function
reads).  `startDateTime` holds the date part (first 10 characters) of the
ISO timestamp as an epoch day number, `none` when the field is missing. -/
structure Task where
  duration : Nat
  durationBreak : Nat
  billable : Bool
  project : Option Project
  projectId : Option String
  startDateTime : Option Int
deriving Repr, DecidableEq

/-- Project aggregation record (`projectMap` values in the source). -/
structure ProjAcc where
  title : String
  color : Option Int
  totalSec : Nat
  billableSec : Nat
  nonBillableSec : Nat
  count : Nat
deriving Repr, DecidableEq

/-- Daily aggregation record (`dailyMap` values in the source). -/
structure DayAcc where
  totalSec : Nat
  billableSec : Nat
  nonBillableSec : Nat
  breakSec : Nat
deriving Repr, DecidableEq

/-- The zero-filled daily entry inserted for days without tasks. -/
def zeroDay : DayAcc := ⟨0, 0, 0, 0⟩

/-! ### `computeStatistics`: accumulation phase -/

/-- `task.project?.id || task.projectId || 'unknown'`. -/
def projKey (t : Task) : String :=
  jsOrS (t.project.bind Project.id) (jsOrS t.projectId "unknown")

/-- `task.project?.title || 'Unknown Project'`. -/
def projTitle (t : Task) : String :=
  jsOrS (t.project.bind Project.title) "Unknown Project"

/-- One iteration of the task loop on the project map: update the existing
entry, or insert `{title, color, duration, billable split, count 1}`. -/
def projStep (m : List (String × ProjAcc)) (t : Task) : List (String × ProjAcc) :=
  match lookupA m (projKey t) with
  | some _ =>
      updateA m (projKey t) (fun e =>
        { e with
          totalSec := e.totalSec + t.duration
          count := e.count + 1
          billableSec := if t.billable then e.billableSec + t.duration else e.billableSec
          nonBillableSec := if t.billable then e.nonBillableSec else e.nonBillableSec + t.duration })
  | none =>
      m ++ [(projKey t,
        { title := projTitle t
          color := t.project.bind Project.color
          totalSec := t.duration
          billableSec := if t.billable then t.duration else 0
          nonBillableSec := if t.billable then 0 else t.duration
          count := 1 })]

/-- The project aggregation map after the task loop. -/
def projectMap (tasks : List Task) : List (String × ProjAcc) :=
  tasks.foldl projStep []

/-- One iteration of the task loop on the daily map; tasks without
`startDateTime` are skipped. -/
def dayStep (m : List (Int × DayAcc)) (t : Task) : List (Int × DayAcc) :=
  match t.startDateTime with
  | none => m
  | some dateKey =>
      match lookupA m dateKey with
      | some _ =>
          updateA m dateKey (fun e =>
            { e with
              totalSec := e.totalSec + t.duration
              breakSec := e.breakSec + t.durationBreak
              billableSec := if t.billable then e.billableSec + t.duration else e.billableSec
              nonBillableSec := if t.billable then e.nonBillableSec else e.nonBillableSec + t.duration })
      | none =>
          m ++ [(dateKey,
            { totalSec := t.duration
              billableSec := if t.billable then t.duration else 0
              nonBillableSec := if t.billable then 0 else t.duration
              breakSec := t.durationBreak })]

/-- The daily aggregation map after the task loop. -/
def dailyMap (tasks : List Task) : List (Int × DayAcc) :=
  tasks.foldl dayStep []

/-- The `while (current <= end)` zero-fill loop, with the iteration count
`(end - start + 1).toNat` made explicit (`cur` runs from `startDate` while
`cur ≤ endDate`). -/
def fillLoop (m : List (Int × DayAcc)) (cur : Int) : Nat → List (Int × DayAcc)
  | 0 => m
  | n + 1 => fillLoop (if hasKeyA m cur then m else m ++ [(cur, zeroDay)]) (cur + 1) n

/-- Fill zero-days within the range. -/
def fillDays (m : List (Int × DayAcc)) (startDate endDate : Int) : List (Int × DayAcc) :=
  fillLoop m startDate (endDate - startDate + 1).toNat

/-- `sortedDays`: daily entries sorted chronologically
(`.sort(([a],[b]) => a.localeCompare(b))`, stable). -/
def sortedDays (tasks : List Task) (startDate endDate : Int) : List (Int × DayAcc) :=
  List.insertionSort (fun a b : Int × DayAcc => a.1 ≤ b.1)
    (fillDays (dailyMap tasks) startDate endDate)

/-! ### `computeStatistics`: output phase -/

/-- A `dailyHours` entry. -/
structure DailyOut where
  date : Int
  hours : ℚ
  billableHours : ℚ
  nonBillableHours : ℚ
  breakHours : ℚ
deriving Repr, DecidableEq

/-- A `weeklyHours` entry. -/
structure WeekOut where
  weekStart : Int
  hours : ℚ
  billableHours : ℚ
  nonBillableHours : ℚ
  breakHours : ℚ
deriving Repr, DecidableEq

/-- A `projectBreakdown` entry. -/
structure BreakdownEntry where
  projectId : String
  projectTitle : String
  projectColor : Option Int
  hours : ℚ
  billableHours : ℚ
  nonBillableHours : ℚ
  taskCount : Nat
  percentage : Int
deriving Repr, DecidableEq

/-- Map a daily accumulator to a `dailyHours` entry
(`Number((sec / 3600).toFixed(2))` on each field). -/
def dayFmt (p : Int × DayAcc) : DailyOut :=
  { date := p.1
    hours := toFixed2 ((p.2.totalSec : ℚ) / 3600)
    billableHours := toFixed2 ((p.2.billableSec : ℚ) / 3600)
    nonBillableHours := toFixed2 ((p.2.nonBillableSec : ℚ) / 3600)
    breakHours := toFixed2 ((p.2.breakSec : ℚ) / 3600) }

/-- The ISO week Monday of a day:
`diff = getDate - day + (day === 0 ? -6 : 1)` in the source
(Sunday maps to the previous Monday). -/
def weekKeyOf (d : Int) : Int :=
  d - getDay d + (if getDay d = 0 then -6 else 1)

/-- One iteration of the weekly fold over the sorted daily entries. -/
def weekStep (wm : List (Int × DayAcc)) (p : Int × DayAcc) : List (Int × DayAcc) :=
  let weekKey := weekKeyOf p.1
  match lookupA wm weekKey with
  | some _ =>
      updateA wm weekKey (fun w =>
        { totalSec := w.totalSec + p.2.totalSec
          billableSec := w.billableSec + p.2.billableSec
          nonBillableSec := w.nonBillableSec + p.2.nonBillableSec
          breakSec := w.breakSec + p.2.breakSec })
  | none => wm ++ [(weekKey, p.2)]

/-- Map a weekly accumulator to a `weeklyHours` entry. -/
def weekFmt (p : Int × DayAcc) : WeekOut :=
  { weekStart := p.1
    hours := toFixed2 ((p.2.totalSec : ℚ) / 3600)
    billableHours := toFixed2 ((p.2.billableSec : ℚ) / 3600)
    nonBillableHours := toFixed2 ((p.2.nonBillableSec : ℚ) / 3600)
    breakHours := toFixed2 ((p.2.breakSec : ℚ) / 3600) }

/-- `weeklyHours` when the range exceeds 14 days: fold the sorted daily
entries into ISO weeks, sort by week key, format. -/
def weeklyOf (days : List (Int × DayAcc)) : List WeekOut :=
  (List.insertionSort (fun a b : Int × DayAcc => a.1 ≤ b.1)
    (days.foldl weekStep [])).map weekFmt

/-- Total seconds accumulated over all tasks (`totalSeconds`). -/
def totalSeconds (tasks : List Task) : Nat :=
  (tasks.map Task.duration).sum

/-- Billable seconds (`billableSeconds`). -/
def billableSeconds (tasks : List Task) : Nat :=
  ((tasks.filter (fun t => t.billable)).map Task.duration).sum

/-- Non-billable seconds (`nonBillableSeconds`). -/
def nonBillableSeconds (tasks : List Task) : Nat :=
  ((tasks.filter (fun t => !t.billable)).map Task.duration).sum

/-- Break seconds (`breakSeconds`). -/
def breakSeconds (tasks : List Task) : Nat :=
  (tasks.map Task.durationBreak).sum

/-- Map a project accumulator to a `projectBreakdown` entry; `totalHours` is
the (rounded) overall total, used for the percentage
(`totalHours > 0 ? Math.round((hours / totalHours) * 100) : 0`). -/
def breakdownFmt (totalHours : ℚ) (p : String × ProjAcc) : BreakdownEntry :=
  let hours := toFixed2 ((p.2.totalSec : ℚ) / 3600)
  { projectId := p.1
    projectTitle := p.2.title
    projectColor := p.2.color
    hours := hours
    billableHours := toFixed2 ((p.2.billableSec : ℚ) / 3600)
    nonBillableHours := toFixed2 ((p.2.nonBillableSec : ℚ) / 3600)
    taskCount := p.2.count
    percentage := if 0 < totalHours then round (hours / totalHours * 100) else 0 }

/-- `projectBreakdown`: entries sorted descending by raw `totalSec`
(`.sort(([, a], [, b]) => b.totalSec - a.totalSec)`, stable), then
formatted. -/
def projectBreakdownOf (tasks : List Task) (totalHours : ℚ) : List BreakdownEntry :=
  (List.insertionSort (fun a b : String × ProjAcc => b.2.totalSec ≤ a.2.totalSec)
    (projectMap tasks)).map (breakdownFmt totalHours)

/-- The result record of `computeStatistics`. -/
structure StatsResult where
  totalHours : ℚ
  billableHours : ℚ
  nonBillableHours : ℚ
  totalTasks : Nat
  totalBreakHours : ℚ
  startDate : Int
  endDate : Int
  projectBreakdown : List BreakdownEntry
  dailyHours : List DailyOut
  weeklyHours : Option (List WeekOut)
deriving Repr, DecidableEq

/-- `computeStatistics(tasks, startDate, endDate)` from the source
(src/index.ts), assembled from the phases above.  `rangeDays` is
`Math.round((end - start) / 86400000) + 1`, exact on whole days. -/
def computeStatistics (tasks : List Task) (startDate endDate : Int) : StatsResult :=
  let days := sortedDays tasks startDate endDate
  let rangeDays : Int := endDate - startDate + 1
  let totalHours := toFixed2 ((totalSeconds tasks : ℚ) / 3600)
  { totalHours := totalHours
    billableHours := toFixed2 ((billableSeconds tasks : ℚ) / 3600)
    nonBillableHours := toFixed2 ((nonBillableSeconds tasks : ℚ) / 3600)
    totalTasks := tasks.length
    totalBreakHours := toFixed2 ((breakSeconds tasks : ℚ) / 3600)
    startDate := startDate
    endDate := endDate
    projectBreakdown := projectBreakdownOf tasks totalHours
    dailyHours := days.map dayFmt
    weeklyHours := if 14 < rangeDays then some (weeklyOf days) else none }

/-! ### MCP tool responses and the error envelope -/

/-- Opaque upstream profile object (passed through unexamined). -/
structure Profile where
  raw : String
deriving Repr, DecidableEq

/-- Opaque upstream settings object (passed through unexamined). -/
structure Settings where
  raw : String
deriving Repr, DecidableEq

/-- A content block of a tool response (all blocks here are text). -/
structure ContentBlock where
  type : String
  text : String
deriving Repr, DecidableEq

/-- The upstream timer's `task` object: the fields copied by
`formatCompleteTimerData` (further pass-through fields not read by any
claim are omitted). -/
structure UpstreamTask where
  id : String
  startDateTime : Option String
  endDateTime : Option String
  description : Option String
  duration : Option Nat
  durationBreak : Option Nat
  billable : Option Bool
deriving Repr, DecidableEq

/-- The upstream timer's `pause` object. -/
structure UpstreamPause where
  id : String
  startDateTime : Option String
  endDateTime : Option String
  description : Option String
deriving Repr, DecidableEq

/-- The object returned by `client.timer.get()` / start / stop / …. -/
structure UpstreamTimer where
  status : String
  task : Option UpstreamTask
  pause : Option UpstreamPause
deriving Repr, DecidableEq

/-- JavaScript `a || b` for numbers that may be `undefined` (0 is falsy). -/
def jsOrN (a : Option Nat) (b : Nat) : Nat :=
  match a with
  | none => b
  | some n => if n = 0 then b else n

/-- The record built by `formatCompleteTimerData`: status, duration,
hours/minutes split, and the task/pause objects (copied field by field in
the source, which is the identity on the modelled fields). -/
structure TimerData where
  status : String
  duration : Nat
  hours : Nat
  minutes : Nat
  task : Option UpstreamTask
  pause : Option UpstreamPause
deriving Repr, DecidableEq

/-- `formatCompleteTimerData(timer)`:
`duration = timer.task?.duration || 0`, `hours = Math.floor(duration/3600)`,
`minutes = Math.floor((duration % 3600)/60)`. -/
def formatCompleteTimerData (timer : UpstreamTimer) : TimerData :=
  let duration := jsOrN (timer.task.bind UpstreamTask.duration) 0
  { status := timer.status
    duration := duration
    hours := duration / 3600
    minutes := duration % 3600 / 60
    task := timer.task
    pause := timer.pause }

/-- The `structuredContent` payloads produced by the embedded handlers. -/
inductive Structured where
  | timer (data : TimerData) (profile : Option Profile) (settings : Option Settings)
  | stats (stats : StatsResult) (profile : Option Profile) (settings : Option Settings)
  | noteAdded (noteText : String)
  | expenseAdded (expenseDescription : String) (amount : Int)
  | pauseAdded (duration : Int)
deriving Repr, DecidableEq

/-- The `_meta` block attached by `addComponentMetadata` (resource URI,
widget description, and the component name used for the invocation keys). -/
structure UiMeta where
  resourceUri : String
  widgetDescription : String
  componentName : String
deriving Repr, DecidableEq

/-- An MCP tool response.  A missing `isError` key is modelled as
`isError = false`. -/
structure ToolResponse where
  content : List ContentBlock
  structuredContent : Option Structured
  isError : Bool
  meta : Option UiMeta
deriving Repr, DecidableEq

/-- An error rejected by an upstream API call:
`error.response?.data?.message`, `error.response?.status`,
`error.message`. -/
structure ApiErr where
  responseDataMessage : Option String
  responseStatus : Option Nat
  message : Option String
deriving Repr, DecidableEq

/-- `handleApiError(error)` from the source: a normal tool response with
`isError: true` and text
`API Error(status?): message` where the status part appears when
`error.response?.status` is truthy (present and nonzero). -/
def handleApiError (error : ApiErr) : ToolResponse :=
  let errorMessage := jsOrS error.responseDataMessage (jsOrS error.message "Unknown error")
  let statusPart :=
    match error.responseStatus with
    | some statusCode => if statusCode = 0 then "" else " (" ++ toString statusCode ++ ")"
    | none => ""
  { content := [⟨"text", "API Error" ++ statusPart ++ ": " ++ errorMessage⟩]
    structuredContent := none
    isError := true
    meta := none }

/-- `getComponentResourceUri(componentName)`. -/
def getComponentResourceUri (componentName : String) : String :=
  "ui://timesheet/" ++ componentName ++ ".html"

/-- `addComponentMetadata(response, componentName, widgetDescription)`:
attach the MCP Apps metadata block to a response. -/
def addComponentMetadata (response : ToolResponse)
    (componentName widgetDescription : String) : ToolResponse :=
  { response with
    meta := some ⟨getComponentResourceUri componentName, widgetDescription, componentName⟩ }

/-- `formatTimerResponse(timerData, profile, settings)`.  The record built
by `formatCompleteTimerData` has no top-level `projectTitle` or
`description`, so those two optional lines never fire, and `duration` is
always defined, so the duration line is always present. -/
def formatTimerResponse (timerData : TimerData) (profile : Option Profile)
    (settings : Option Settings) : ToolResponse :=
  let textContent := "Timer status: " ++ timerData.status ++
    "\nDuration: " ++ toString timerData.hours ++ "h " ++ toString timerData.minutes ++ "m"
  addComponentMetadata
    { content := [⟨"text", textContent⟩]
      structuredContent := some (.timer timerData profile settings)
      isError := false
      meta := none }
    "TimerWidget"
    "Interactive timer display showing current status, duration, and controls to pause, resume, or stop the timer"

/-- JavaScript `q.toFixed(1)` as a string, for the nonnegative rationals
arising in the statistics text. -/
def toFixed1 (q : ℚ) : String :=
  let n := round (q * 10)
  toString (n / 10) ++ "." ++ toString (n % 10)

/-- The multi-line text summary built by `formatStatisticsResponse`.
The `stats.startDate && stats.endDate` guard is truthy for the nonempty
date strings of the source; dates print via the day-number model. -/
def statisticsText (stats : StatsResult) : String :=
  let billablePct : Int :=
    if 0 < stats.totalHours then round (stats.billableHours / stats.totalHours * 100) else 0
  let ls := ["Period: " ++ toString stats.startDate ++ " to " ++ toString stats.endDate]
  let ls := ls ++ ["Total: " ++ toFixed1 stats.totalHours ++ "h | Billable: " ++
    toFixed1 stats.billableHours ++ "h (" ++ toString billablePct ++ "%) | Tasks: " ++
    toString stats.totalTasks]
  let ls := if 0 < stats.totalBreakHours
    then ls ++ ["Breaks: " ++ toFixed1 stats.totalBreakHours ++ "h"] else ls
  let ls := if stats.projectBreakdown.length ≠ 0 then
      ls ++ ["", "Project Breakdown:"] ++
        stats.projectBreakdown.map (fun p =>
          "  - " ++ p.projectTitle ++ ": " ++ toFixed1 p.hours ++ "h (" ++
          toString p.percentage ++ "%, " ++ toString p.taskCount ++ " tasks)")
    else ls
  let ls := if stats.dailyHours.length ≠ 0 then
      ls ++ ["", "Daily Hours:"] ++
        (stats.dailyHours.take 14).map (fun d =>
          "  - " ++ toString d.date ++ ": " ++ toFixed1 d.hours ++ "h") ++
        (if 14 < stats.dailyHours.length
          then ["  ... and " ++ toString (stats.dailyHours.length - 14) ++ " more days"]
          else [])
    else ls
  String.intercalate "\n" ls

/-- `formatStatisticsResponse(stats, profile, settings)`. -/
def formatStatisticsResponse (stats : StatsResult) (profile : Option Profile)
    (settings : Option Settings) : ToolResponse :=
  addComponentMetadata
    { content := [⟨"text", statisticsText stats⟩]
      structuredContent := some (.stats stats profile settings)
      isError := false
      meta := none }
    "Statistics"
    ("Time tracking statistics dashboard showing " ++ toFixed1 stats.totalHours ++
     "h total (" ++ toFixed1 stats.billableHours ++ "h billable) across " ++
     toString stats.totalTasks ++ " tasks with project breakdowns and " ++
     (if stats.weeklyHours.isSome then "weekly" else "daily") ++ " charts")

/-! ### `getProfileAndSettings` and the timer/statistics handlers -/

/-- `.catch(() => null)` on an awaited promise. -/
def catchNull {α : Type} (p : Except ApiErr α) : Option α :=
  match p with
  | .ok a => some a
  | .error _ => none

/-- The record returned by `getProfileAndSettings`. -/
structure UserData where
  profile : Option Profile
  settings : Option Settings
deriving Repr, DecidableEq

/-- `getProfileAndSettings()`: fetch profile and settings in parallel, each
with `.catch(() => null)`, so neither failure rejects the join (the outer
`catch` is unreachable). -/
def getProfileAndSettings (profileResult : Except ApiErr Profile)
    (settingsResult : Except ApiErr Settings) : UserData :=
  ⟨catchNull profileResult, catchNull settingsResult⟩

/-- `handleTimerStatus()`: joins `client.timer.get()` with
`getProfileAndSettings()`; a rejected timer fetch lands in `catch`
(`handleApiError`), and the join itself cannot reject. -/
def handleTimerStatus (timerGet : Except ApiErr UpstreamTimer)
    (profileResult : Except ApiErr Profile) (settingsResult : Except ApiErr Settings) :
    ToolResponse :=
  match timerGet with
  | .error e => handleApiError e
  | .ok timer =>
      let userData := getProfileAndSettings profileResult settingsResult
      formatTimerResponse (formatCompleteTimerData timer) userData.profile userData.settings

/-! ### The enhancement tools: add note / expense / pause -/

/-- The precondition-failure response of the enhancement tools. -/
def noRunningTimerResponse : ToolResponse :=
  { content := [⟨"text", "No running timer found. Please start a timer first."⟩]
    structuredContent := none
    isError := true
    meta := none }

/-- `handleAddNote(args)`.  The second component records whether the
upstream `notes.create` endpoint was invoked. -/
def handleAddNote (timerGet : Except ApiErr UpstreamTimer)
    (notesCreate : Except ApiErr Unit) (text : String) (dateTime : Option String) :
    ToolResponse × Bool :=
  match timerGet with
  | .error e => (handleApiError e, false)
  | .ok timer =>
      if timer.task.isNone || timer.status == "stopped" then
        (noRunningTimerResponse, false)
      else
        match notesCreate with
        | .error e => (handleApiError e, true)
        | .ok _ =>
            ({ content := [⟨"text", "Note added to current task: \"" ++ text ++ "\""⟩]
               structuredContent := some (.noteAdded text)
               isError := false
               meta := none }, true)

/-- `handleAddExpense(args)`; the Boolean records whether
`expenses.create` was invoked. -/
def handleAddExpense (timerGet : Except ApiErr UpstreamTimer)
    (expensesCreate : Except ApiErr Unit) (description : String) (amount : Int)
    (dateTime : Option String) : ToolResponse × Bool :=
  match timerGet with
  | .error e => (handleApiError e, false)
  | .ok timer =>
      if timer.task.isNone || timer.status == "stopped" then
        (noRunningTimerResponse, false)
      else
        match expensesCreate with
        | .error e => (handleApiError e, true)
        | .ok _ =>
            ({ content := [⟨"text", "Expense added: " ++ description ++ " - $" ++ toString amount⟩]
               structuredContent := some (.expenseAdded description amount)
               isError := false
               meta := none }, true)

/-- `handleAddPause(args)`; the Boolean records whether `pauses.create` was
invoked.  `startDateTime`/`endDateTime` are epoch milliseconds;
`Math.floor((end - start) / 1000)` is floor division. -/
def handleAddPause (timerGet : Except ApiErr UpstreamTimer)
    (pausesCreate : Except ApiErr Unit) (description : Option String)
    (startDateTime endDateTime : Int) : ToolResponse × Bool :=
  match timerGet with
  | .error e => (handleApiError e, false)
  | .ok timer =>
      if timer.task.isNone || timer.status == "stopped" then
        (noRunningTimerResponse, false)
      else
        match pausesCreate with
        | .error e => (handleApiError e, true)
        | .ok _ =>
            let durationSeconds := Int.fdiv (endDateTime - startDateTime) 1000
            ({ content := [⟨"text", "Pause added to current task"⟩]
               structuredContent := some (.pauseAdded durationSeconds)
               isError := false
               meta := none }, true)

/-! ### `handleStatisticsGet`: pagination loop and assembly -/

/-- The `for (page = 1; page <= maxPages; page++)` fetch loop of
`handleStatisticsGet`: fetch a page, append its items, stop early when a
page returns fewer than `limit = 100` items; a rejected fetch rejects the
loop.  `remaining` counts the pages still allowed (`maxPages = 5`). -/
def fetchPages (search : Nat → Except ApiErr (List Task)) :
    Nat → Nat → List Task → Except ApiErr (List Task)
  | _, 0, allTasks => .ok allTasks
  | page, remaining + 1, allTasks =>
      match search page with
      | .error e => .error e
      | .ok items =>
          if items.length < 100 then .ok (allTasks ++ items)
          else fetchPages search (page + 1) remaining (allTasks ++ items)

/-- The task fetch of `handleStatisticsGet` (up to 5 pages of 100). -/
def fetchAllTasks (search : Nat → Except ApiErr (List Task)) : Except ApiErr (List Task) :=
  fetchPages search 1 5 []

/-- `handleStatisticsGet(args)`: fetch tasks (paginated), aggregate with
`computeStatistics`, join with `getProfileAndSettings`, format; a rejected
fetch lands in `catch` (`handleApiError`). -/
def handleStatisticsGet (search : Nat → Except ApiErr (List Task))
    (profileResult : Except ApiErr Profile) (settingsResult : Except ApiErr Settings)
    (startDate endDate : Int) : ToolResponse :=
  match fetchAllTasks search with
  | .error e => handleApiError e
  | .ok allTasks =>
      let userData := getProfileAndSettings profileResult settingsResult
      formatStatisticsResponse (computeStatistics allTasks startDate endDate)
        userData.profile userData.settings

/-! ### The tool dispatcher -/

/-- MCP protocol error codes used by the dispatcher. -/
inductive McpErrorCode where
  | methodNotFound
  | internalError
deriving Repr, DecidableEq

/-- An MCP protocol-level error (`McpError` in the SDK). -/
structure McpProtoError where
  code : McpErrorCode
  message : String
deriving Repr, DecidableEq

/-- An exception escaping a handler inside the dispatcher's `try` block:
either an SDK `McpError` or any other JavaScript error. -/
inductive ThrownError where
  | mcp (e : McpProtoError)
  | js (msg : String)
deriving Repr, DecidableEq

/-- The `case` labels of the dispatcher switch, in source order. -/
def knownToolNames : List String :=
  ["timer_start", "timer_stop", "timer_pause", "timer_resume", "timer_status",
   "timer_update",
   "task_add_note", "task_add_expense", "task_add_pause",
   "team_list",
   "project_list", "project_create", "project_update", "project_delete", "project_get",
   "task_list", "task_create", "task_update", "task_delete", "task_get",
   "statistics_get",
   "auth_configure",
   "report_document_get", "report_document_pdf", "report_document_xml",
   "report_task_get", "report_task_pdf",
   "report_expense_get", "report_expense_pdf",
   "report_note_get", "report_note_pdf",
   "export_generate", "export_send", "export_from_template",
   "export_fields", "export_report_types",
   "export_template_list", "export_template_get", "export_template_create",
   "export_template_update", "export_template_delete"]

/-- The `CallToolRequestSchema` handler: route a known name to its handler
(modelled as an oracle from names to outcomes), throw
`McpError(MethodNotFound, "Unknown tool: <name>")` on the default branch;
the `catch` rethrows `McpError`s unchanged and wraps any other exception
into `McpError(InternalError, …)`.  A `.error` result models a protocol
error terminating only this call. -/
def callToolHandler (handlers : String → Except ThrownError ToolResponse)
    (name : String) : Except McpProtoError ToolResponse :=
  let tryResult : Except ThrownError ToolResponse :=
    if name ∈ knownToolNames then handlers name
    else .error (.mcp ⟨.methodNotFound, "Unknown tool: " ++ name⟩)
  match tryResult with
  | .ok r => .ok r
  | .error (.mcp e) => .error e
  | .error (.js msg) => .error ⟨.internalError, "Error executing tool: " ++ msg⟩

/-! ### Auxiliary definitions for stating the claims -/

/-- The inclusive day enumeration `[startDate, …, endDate]`, used to state
the gap-free daily series property. -/
def intRange (s e : Int) : List Int :=
  (List.range (e - s + 1).toNat).map (fun (i : ℕ) => s + (i : Int))

/-- The raw (unrounded) accumulated seconds of a project in the project
aggregation map, used to state the breakdown ordering claims. -/
def rawSecOf (tasks : List Task) (pid : String) : Nat :=
  match lookupA (projectMap tasks) pid with
  | some v => v.totalSec
  | none => 0

/-- Sum of `g` over the values of an association list (proof auxiliary). -/
def valSum {κ β : Type} (g : β → ℕ) (m : List (κ × β)) : Nat :=
  (m.map (fun p => g p.2)).sum

/-- Total duration of the tasks that carry a `startDateTime` (exactly the
tasks entering the daily aggregation). -/
def datedSeconds (tasks : List Task) : Nat :=
  ((tasks.filter (fun t => t.startDateTime.isSome)).map Task.duration).sum

/-- Totality and transitivity of the comparator orders used by the two
embedded sorts (registered for the sortedness lemmas). -/
instance : IsTotal (Int × DayAcc) (fun a b => a.1 ≤ b.1) :=
  ⟨fun a b => le_total a.1 b.1⟩

instance : IsTrans (Int × DayAcc) (fun a b => a.1 ≤ b.1) :=
  ⟨fun _ _ _ h1 h2 => le_trans h1 h2⟩

instance : IsTotal (String × ProjAcc) (fun a b => b.2.totalSec ≤ a.2.totalSec) :=
  ⟨fun a b => le_total b.2.totalSec a.2.totalSec⟩

instance : IsTrans (String × ProjAcc) (fun a b => b.2.totalSec ≤ a.2.totalSec) :=
  ⟨fun _ _ _ h1 h2 => le_trans h2 h1⟩

/-! ### Concrete counterexample inputs -/

/-- Five 18-second billable tasks on five consecutive days, in five
distinct projects.  Each 18-second bucket rounds to 0.01 h while the
90-second total rounds to 0.03 h (actual JavaScript behaves identically:
`(0.005).toFixed(2) = "0.01"`, `(0.025).toFixed(2) = "0.03"`). -/
def fiveTinyTasks : List Task :=
  [⟨18, 0, true, some ⟨some "p1", some "P1", none⟩, none, some 0⟩,
   ⟨18, 0, true, some ⟨some "p2", some "P2", none⟩, none, some 1⟩,
   ⟨18, 0, true, some ⟨some "p3", some "P3", none⟩, none, some 2⟩,
   ⟨18, 0, true, some ⟨some "p4", some "P4", none⟩, none, some 3⟩,
   ⟨18, 0, true, some ⟨some "p5", some "P5", none⟩, none, some 4⟩]

/-- A task whose start date (day -5) lies outside the queried range. -/
def strayDayTask : Task := ⟨3600, 0, true, none, none, some (-5)⟩


/-! ### Claim C3: enhancement tools with a stopped timer -/

/-- C3: for every call to `task_add_note`, `task_add_expense`, or
`task_add_pause` made while the current timer status fetched from upstream
is `stopped`, the handler returns a response with `isError: true` whose
text is `No running timer found. Please start a timer first.`, and the
upstream create endpoint is not invoked (second component `false`). -/
theorem add_tools_reject_stopped_timer
    (timerGet : Except ApiErr UpstreamTimer) (timer : UpstreamTimer)
    (noteCreate expenseCreate pauseCreate : Except ApiErr Unit)
    (text : String) (dateTime : Option String) (description : String) (amount : Int)
    (pauseDescription : Option String) (pauseStart pauseEnd : Int)
    (hok : timerGet = .ok timer) (hstopped : timer.status = "stopped") :
    handleAddNote timerGet noteCreate text dateTime = (noRunningTimerResponse, false) ∧
    handleAddExpense timerGet expenseCreate description amount dateTime =
      (noRunningTimerResponse, false) ∧
    handleAddPause timerGet pauseCreate pauseDescription pauseStart pauseEnd =
      (noRunningTimerResponse, false) ∧
    noRunningTimerResponse.isError = true ∧
    noRunningTimerResponse.content =
      [⟨"text", "No running timer found. Please start a timer first."⟩] := by
  subst hok
  refine ⟨?_, ?_, ?_, rfl, rfl⟩ <;>
    simp [handleAddNote, handleAddExpense, handleAddPause, hstopped]

/-- Witness for C3 at a concrete stopped timer (with a task attached, so
only the status triggers the rejection). -/
theorem add_tools_reject_stopped_timer_witness :
    handleAddNote (.ok ⟨"stopped", some ⟨"t1", none, none, none, some 60, none, none⟩, none⟩)
        (.ok ()) "a note" none = (noRunningTimerResponse, false) ∧
    handleAddPause (.ok ⟨"stopped", some ⟨"t1", none, none, none, some 60, none, none⟩, none⟩)
        (.ok ()) none 0 1000 = (noRunningTimerResponse, false) := by
  have h := add_tools_reject_stopped_timer
    (.ok ⟨"stopped", some ⟨"t1", none, none, none, some 60, none, none⟩, none⟩)
    ⟨"stopped", some ⟨"t1", none, none, none, some 60, none, none⟩, none⟩
    (.ok ()) (.ok ()) (.ok ()) "a note" none "d" 1 none 0 1000 rfl rfl
  exact ⟨h.1, h.2.2.1⟩

/-! ### Claim C9: unknown tool names -/

/-- C9: a tool-call request whose name matches none of the registered tool
names makes the dispatcher produce an MCP `MethodNotFound` protocol error
with message `Unknown tool: <name>` — it is returned as that single call's
error (not converted into the generic internal-error wrapper, which is a
distinct code). -/
theorem unknown_tool_is_method_not_found
    (name : String) (handlers : String → Except ThrownError ToolResponse)
    (h : name ∉ knownToolNames) :
    callToolHandler handlers name =
      .error ⟨.methodNotFound, "Unknown tool: " ++ name⟩ ∧
    McpErrorCode.methodNotFound ≠ McpErrorCode.internalError := by
  refine ⟨?_, by decide⟩
  simp [callToolHandler, h]

/-- Witness for C9 at the concrete unknown name `statistics_delete`. -/
theorem unknown_tool_is_method_not_found_witness :
    callToolHandler (fun _ => .error (.js "unreachable")) "statistics_delete" =
      .error ⟨.methodNotFound, "Unknown tool: statistics_delete"⟩ :=
  (unknown_tool_is_method_not_found "statistics_delete"
    (fun _ => .error (.js "unreachable")) (by decide)).1

/-! ### Claim C10: profile/settings fetch failures never fail the tool -/

/-- C10: for tool invocations joining a profile-and-settings fetch with the
primary upstream call (`timer_status`, `statistics_get`), a failure of the
profile fetch or of the settings fetch never fails the tool call: each
rejection is caught and replaced by `null`, and the response is produced
normally (with `isError = false`) with `profile`/`settings` set to the
caught values. -/
theorem profile_settings_failures_are_caught
    (e1 e2 : ApiErr) (timer : UpstreamTimer)
    (profileResult : Except ApiErr Profile) (settingsResult : Except ApiErr Settings)
    (search : Nat → Except ApiErr (List Task)) (tasks : List Task) (sd ed : Int)
    (hfetch : fetchAllTasks search = .ok tasks) :
    getProfileAndSettings (.error e1) (.error e2) = ⟨none, none⟩ ∧
    handleTimerStatus (.ok timer) profileResult settingsResult =
      formatTimerResponse (formatCompleteTimerData timer)
        (catchNull profileResult) (catchNull settingsResult) ∧
    (handleTimerStatus (.ok timer) profileResult settingsResult).isError = false ∧
    handleStatisticsGet search profileResult settingsResult sd ed =
      formatStatisticsResponse (computeStatistics tasks sd ed)
        (catchNull profileResult) (catchNull settingsResult) ∧
    (handleStatisticsGet search profileResult settingsResult sd ed).isError = false := by
  refine ⟨rfl, rfl, ?_, ?_, ?_⟩
  · simp [handleTimerStatus, formatTimerResponse, addComponentMetadata]
  · simp [handleStatisticsGet, hfetch, getProfileAndSettings]
  · simp [handleStatisticsGet, hfetch, formatStatisticsResponse, addComponentMetadata]

/-- Witness for C10: both auxiliary fetches fail, the primary calls
succeed, and both tools still answer with `isError = false` and null
profile/settings. -/
theorem profile_settings_failures_are_caught_witness :
    (handleTimerStatus (.ok ⟨"stopped", none, none⟩)
      (.error ⟨none, none, some "profile down"⟩)
      (.error ⟨none, none, some "settings down"⟩)).isError = false ∧
    (handleStatisticsGet (fun _ => .ok [])
      (.error ⟨none, none, some "profile down"⟩)
      (.error ⟨none, none, some "settings down"⟩) 0 0).isError = false := by
  have h := profile_settings_failures_are_caught
    ⟨none, none, some "profile down"⟩ ⟨none, none, some "settings down"⟩
    ⟨"stopped", none, none⟩
    (.error ⟨none, none, some "profile down"⟩)
    (.error ⟨none, none, some "settings down"⟩)
    (fun _ => .ok []) [] 0 0 rfl
  exact ⟨h.2.2.1, h.2.2.2.2⟩

/-! ### Claim C8: upstream API failures become `isError` responses -/

/-- Reassociation of the `API Error (status): message` template. -/
theorem apiErrorTextEq (s m : String) :
    "API Error" ++ (" (" ++ s ++ ")") ++ ": " ++ m = "API Error (" ++ s ++ "): " ++ m := by
  rw [← String.append_assoc, ← String.append_assoc]
  rw [String.append_assoc ("API Error" ++ " (" ++ s) ")" ": "]
  rfl

/-- C8: when an upstream API call inside a tool handler fails, the handler
returns a normal tool response (no protocol exception) with
`isError: true` and a single text block of the form
`API Error (status): message`, the parenthesised status appearing exactly
when the upstream error carries one (HTTP statuses are nonzero). -/
theorem api_failures_render_error_responses
    (error : ApiErr) (search : Nat → Except ApiErr (List Task))
    (profileResult : Except ApiErr Profile) (settingsResult : Except ApiErr Settings)
    (sd ed : Int) (noteCreate : Except ApiErr Unit) (text : String)
    (dateTime : Option String)
    (hfetch : fetchAllTasks search = .error error) :
    handleStatisticsGet search profileResult settingsResult sd ed = handleApiError error ∧
    handleAddNote (.error error) noteCreate text dateTime = (handleApiError error, false) ∧
    (handleApiError error).isError = true ∧
    (handleApiError error).structuredContent = none ∧
    (∀ n, error.responseStatus = some n → n ≠ 0 →
      (handleApiError error).content =
        [⟨"text", "API Error (" ++ toString n ++ "): " ++
          jsOrS error.responseDataMessage (jsOrS error.message "Unknown error")⟩]) ∧
    (error.responseStatus = none →
      (handleApiError error).content =
        [⟨"text", "API Error: " ++
          jsOrS error.responseDataMessage (jsOrS error.message "Unknown error")⟩]) := by
  refine ⟨?_, rfl, rfl, rfl, ?_, ?_⟩
  · simp [handleStatisticsGet, hfetch]
  · intro n hn hnz
    simp [handleApiError, hn, hnz]
    exact apiErrorTextEq (toString n) _
  · intro hn
    simp [handleApiError, hn]

/-- Witness for C8: a concrete 404 from the task search is rendered as
`API Error (404): Not found` with `isError: true`. -/
theorem api_failures_render_error_responses_witness :
    handleStatisticsGet (fun _ => .error ⟨some "Not found", some 404, none⟩)
        (.ok ⟨"p"⟩) (.ok ⟨"s"⟩) 0 0 =
      handleApiError ⟨some "Not found", some 404, none⟩ ∧
    (handleApiError ⟨some "Not found", some 404, none⟩).content =
      [⟨"text", "API Error (404): Not found"⟩] := by
  have h := api_failures_render_error_responses
    ⟨some "Not found", some 404, none⟩
    (fun _ => .error ⟨some "Not found", some 404, none⟩)
    (.ok ⟨"p"⟩) (.ok ⟨"s"⟩) 0 0 (.ok ()) "t" none rfl
  exact ⟨h.1, by simpa using h.2.2.2.2.1 404 rfl (by decide)⟩

/-- C1 counterexample: for the non-empty task list `fiveTinyTasks` on the
range day 0 .. day 4, the daily hours sum to 0.05 and the project hours sum
to 0.05 while `totalHours` is 0.03, so neither sum is within 0.01 of
`totalHours`. -/
theorem rounding_tolerance_counterexample :
    fiveTinyTasks ≠ [] ∧
    ¬ (|((computeStatistics fiveTinyTasks 0 4).dailyHours.map DailyOut.hours).sum -
          (computeStatistics fiveTinyTasks 0 4).totalHours| ≤ 1 / 100 ∧
        |((computeStatistics fiveTinyTasks 0 4).projectBreakdown.map
            BreakdownEntry.hours).sum -
          (computeStatistics fiveTinyTasks 0 4).totalHours| ≤ 1 / 100) := by
  have h90 : toFixed2 ((90 : ℚ) / 3600) = 3 / 100 := by rw [toFixed2, round_eq]; norm_num
  have h18 : toFixed2 ((18 : ℚ) / 3600) = 1 / 100 := by rw [toFixed2, round_eq]; norm_num
  have hd : ((computeStatistics fiveTinyTasks 0 4).dailyHours.map DailyOut.hours).sum
      = 5 / 100 := by
    simp [computeStatistics, sortedDays, fillDays, fillLoop, dailyMap, dayStep,
      lookupA, updateA, hasKeyA, zeroDay, dayFmt, fiveTinyTasks,
      List.insertionSort, List.orderedInsert, h18]
    norm_num [toFixed2, round_eq]
  have hp : ((computeStatistics fiveTinyTasks 0 4).projectBreakdown.map
      BreakdownEntry.hours).sum = 5 / 100 := by
    simp [computeStatistics, projectBreakdownOf, projectMap, projStep, fiveTinyTasks,
      lookupA, updateA, breakdownFmt, totalSeconds, jsOrS, projKey, projTitle,
      List.insertionSort, List.orderedInsert, h18]
    norm_num [toFixed2, round_eq]
  have ht : (computeStatistics fiveTinyTasks 0 4).totalHours = 3 / 100 := by
    simp [computeStatistics, totalSeconds, fiveTinyTasks]
    norm_num [toFixed2, round_eq]
  rw [hd, hp, ht]
  refine ⟨by simp [fiveTinyTasks], ?_⟩
  have habs : |(5 : ℚ) / 100 - 3 / 100| = 1 / 50 := by
    rw [abs_of_nonneg] <;> norm_num
  simp [habs]
  norm_num

/-- C2 counterexample: with a task dated outside the range, `dailyHours`
for the one-day range day 0 .. day 0 has two entries, not the inclusive
day count 1. -/
theorem daily_series_length_counterexample :
    (computeStatistics [strayDayTask] 0 0).dailyHours.length = 2 ∧
    ((0 : Int) - 0 + 1).toNat = 1 := by
  constructor
  · decide
  · decide

/-- C6 counterexample: for `fiveTinyTasks`, each of the five projects gets
`round(0.01 / 0.03 * 100) = 33` percent, so the percentages sum to 165,
exceeding 100. -/
theorem percentage_sum_counterexample :
    ((computeStatistics fiveTinyTasks 0 4).projectBreakdown.map
        BreakdownEntry.percentage).sum = 165 ∧
    ¬ (((computeStatistics fiveTinyTasks 0 4).projectBreakdown.map
        BreakdownEntry.percentage).sum ≤ 100) := by
  have h90 : toFixed2 ((90 : ℚ) / 3600) = 3 / 100 := by rw [toFixed2, round_eq]; norm_num
  have h18 : toFixed2 ((18 : ℚ) / 3600) = 1 / 100 := by rw [toFixed2, round_eq]; norm_num
  have h33 : round ((1 : ℚ) / 100 / (3 / 100) * 100) = 33 := by rw [round_eq]; norm_num
  have hsum : ((computeStatistics fiveTinyTasks 0 4).projectBreakdown.map
      BreakdownEntry.percentage).sum = 165 := by
    simp [computeStatistics, projectBreakdownOf, projectMap, projStep, fiveTinyTasks,
      lookupA, updateA, breakdownFmt, totalSeconds, jsOrS, projKey, projTitle,
      List.insertionSort, List.orderedInsert, h90, h18, h33]
    norm_num [toFixed2, round_eq]
  rw [hsum]
  exact ⟨rfl, by norm_num⟩


/-! ### Toolbox: association-list lemmas -/

theorem lookupA_eq_none {κ β : Type} [DecidableEq κ] {m : List (κ × β)} {k : κ} :
    lookupA m k = none ↔ k ∉ m.map Prod.fst := by
  induction m with
  | nil => simp [lookupA]
  | cons p rest ih =>
    obtain ⟨k₀, v₀⟩ := p
    by_cases h : k₀ = k
    · subst h; simp [lookupA]
    · simp [lookupA, h, ih]
      exact fun _ hh => h hh.symm

theorem lookupA_isSome {κ β : Type} [DecidableEq κ] {m : List (κ × β)} {k : κ} :
    (lookupA m k).isSome = true ↔ k ∈ m.map Prod.fst := by
  rcases h : lookupA m k with _ | v
  · simpa using lookupA_eq_none.1 h
  · simp only [Option.isSome_some, true_iff]
    by_contra hk
    rw [lookupA_eq_none.2 hk] at h
    exact Option.noConfusion h

theorem lookupA_mem {κ β : Type} [DecidableEq κ] {m : List (κ × β)} {k : κ} {v : β}
    (h : lookupA m k = some v) : (k, v) ∈ m := by
  induction m with
  | nil => simp [lookupA] at h
  | cons p rest ih =>
    obtain ⟨k₀, v₀⟩ := p
    by_cases hk : k₀ = k
    · subst hk
      simp [lookupA] at h
      simp [h]
    · simp [lookupA, hk] at h
      exact List.mem_cons_of_mem _ (ih h)

theorem mem_lookupA {κ β : Type} [DecidableEq κ] {m : List (κ × β)} {k : κ} {v : β}
    (hnd : (m.map Prod.fst).Nodup) (h : (k, v) ∈ m) : lookupA m k = some v := by
  induction m with
  | nil => simp at h
  | cons p rest ih =>
    obtain ⟨k₀, v₀⟩ := p
    rw [List.map_cons, List.nodup_cons] at hnd
    rcases List.mem_cons.1 h with h1 | h1
    · rw [show k₀ = k from (Prod.mk.injEq .. ▸ h1.symm).1,
        show v₀ = v from (Prod.mk.injEq .. ▸ h1.symm).2]
      simp [lookupA]
    · have hk : k₀ ≠ k := by
        intro hk
        subst hk
        exact hnd.1 (List.mem_map.2 ⟨(k₀, v), h1, rfl⟩)
      simp [lookupA, hk]
      exact ih hnd.2 h1

theorem keys_updateA {κ β : Type} [DecidableEq κ] {m : List (κ × β)} {k : κ} {f : β → β} :
    (updateA m k f).map Prod.fst = m.map Prod.fst := by
  induction m with
  | nil => rfl
  | cons p rest ih =>
    obtain ⟨k₀, v₀⟩ := p
    by_cases h : k₀ = k <;> simp [updateA, h, ih]

theorem lookupA_updateA_self {κ β : Type} [DecidableEq κ] {m : List (κ × β)} {k : κ}
    {v : β} {f : β → β} (h : lookupA m k = some v) :
    lookupA (updateA m k f) k = some (f v) := by
  induction m with
  | nil => simp [lookupA] at h
  | cons p rest ih =>
    obtain ⟨k₀, v₀⟩ := p
    by_cases hk : k₀ = k
    · subst hk
      simp [lookupA] at h
      simp [updateA, lookupA, h]
    · simp [lookupA, hk] at h
      simp [updateA, lookupA, hk]
      exact ih h

theorem valSum_updateA {κ β : Type} [DecidableEq κ] {m : List (κ × β)} {k : κ}
    {v : β} {f : β → β} (g : β → ℕ) (h : lookupA m k = some v) :
    valSum g (updateA m k f) + g v = valSum g m + g (f v) := by
  induction m with
  | nil => simp [lookupA] at h
  | cons p rest ih =>
    obtain ⟨k₀, v₀⟩ := p
    by_cases hk : k₀ = k
    · subst hk
      simp [lookupA] at h
      subst h
      simp [updateA, valSum]
      omega
    · simp [lookupA, hk] at h
      have ih2 := ih h
      simp [updateA, valSum, hk] at ih2 ⊢
      omega

theorem valSum_append {κ β : Type} (g : β → ℕ) (m₁ m₂ : List (κ × β)) :
    valSum g (m₁ ++ m₂) = valSum g m₁ + valSum g m₂ := by
  simp [valSum]

/-! ### Toolbox: accumulation-phase lemmas -/

theorem valSum_projStep (m : List (String × ProjAcc)) (t : Task) :
    valSum ProjAcc.totalSec (projStep m t) =
      valSum ProjAcc.totalSec m + t.duration := by
  unfold projStep
  cases h : lookupA m (projKey t) with
  | none => simp [h, valSum_append, valSum]
  | some v =>
      have hv := valSum_updateA (f := fun e =>
        { e with
          totalSec := e.totalSec + t.duration
          count := e.count + 1
          billableSec := if t.billable then e.billableSec + t.duration else e.billableSec
          nonBillableSec := if t.billable then e.nonBillableSec
            else e.nonBillableSec + t.duration }) ProjAcc.totalSec h
      simp at hv ⊢
      omega

theorem valSum_projectMap (tasks : List Task) :
    valSum ProjAcc.totalSec (projectMap tasks) = totalSeconds tasks := by
  suffices h : ∀ m, valSum ProjAcc.totalSec (tasks.foldl projStep m) =
      valSum ProjAcc.totalSec m + totalSeconds tasks by
    simpa [valSum, projectMap] using h []
  induction tasks with
  | nil => simp [totalSeconds]
  | cons t ts ih =>
      intro m
      simp only [List.foldl_cons, ih, valSum_projStep, totalSeconds, List.map_cons, List.sum_cons]
      omega

theorem valSum_dayStep (m : List (Int × DayAcc)) (t : Task) :
    valSum DayAcc.totalSec (dayStep m t) =
      valSum DayAcc.totalSec m + (if t.startDateTime.isSome then t.duration else 0) := by
  unfold dayStep
  cases hs : t.startDateTime with
  | none => simp
  | some d =>
      cases h : lookupA m d with
      | none => simp [h, valSum_append, valSum]
      | some v =>
          have hv := valSum_updateA (f := fun e =>
            { e with
              totalSec := e.totalSec + t.duration
              breakSec := e.breakSec + t.durationBreak
              billableSec := if t.billable then e.billableSec + t.duration else e.billableSec
              nonBillableSec := if t.billable then e.nonBillableSec
                else e.nonBillableSec + t.duration }) DayAcc.totalSec h
          simp only [h]
          simp at hv ⊢
          omega

theorem valSum_dailyMap (tasks : List Task) :
    valSum DayAcc.totalSec (dailyMap tasks) = datedSeconds tasks := by
  suffices h : ∀ m, valSum DayAcc.totalSec (tasks.foldl dayStep m) =
      valSum DayAcc.totalSec m + datedSeconds tasks by
    simpa [valSum, dailyMap] using h []
  induction tasks with
  | nil => simp [datedSeconds]
  | cons t ts ih =>
      intro m
      cases hs : t.startDateTime with
      | none =>
          simp [List.foldl_cons, ih, valSum_dayStep, datedSeconds, List.filter_cons, hs]
      | some d =>
          simp [List.foldl_cons, ih, valSum_dayStep, datedSeconds, List.filter_cons, hs]
          omega

theorem valSum_fillLoop (g : DayAcc → ℕ) (hg : g zeroDay = 0) :
    ∀ (n : Nat) (m : List (Int × DayAcc)) (cur : Int),
      valSum g (fillLoop m cur n) = valSum g m := by
  intro n
  induction n with
  | zero => intro m cur; simp [fillLoop]
  | succ n ih =>
      intro m cur
      rw [fillLoop, ih]
      by_cases h : hasKeyA m cur
      · simp [h]
      · simp [h, valSum_append, valSum, hg]


/-! ### Toolbox: key-set and uniqueness lemmas -/

theorem nodup_keys_projStep {m : List (String × ProjAcc)} {t : Task}
    (h : (m.map Prod.fst).Nodup) : ((projStep m t).map Prod.fst).Nodup := by
  unfold projStep
  cases hl : lookupA m (projKey t) with
  | some v => simpa [keys_updateA] using h
  | none =>
      have hk : projKey t ∉ m.map Prod.fst := lookupA_eq_none.1 hl
      simp [List.nodup_append, h, hk]

theorem mem_keys_projStep {m : List (String × ProjAcc)} {t : Task} {k : String} :
    k ∈ (projStep m t).map Prod.fst ↔ k ∈ m.map Prod.fst ∨ k = projKey t := by
  unfold projStep
  cases hl : lookupA m (projKey t) with
  | some v =>
      rw [keys_updateA]
      have hmem : projKey t ∈ m.map Prod.fst := by
        rw [← lookupA_isSome]
        simp [hl]
      constructor
      · exact fun hh => Or.inl hh
      · rintro (hh | rfl) <;> assumption
  | none => simp [List.map_append, or_comm]

theorem nodup_keys_projectMap (tasks : List Task) :
    ((projectMap tasks).map Prod.fst).Nodup := by
  suffices h : ∀ m, (m.map Prod.fst).Nodup →
      (((tasks.foldl projStep m).map Prod.fst)).Nodup by
    exact h [] (by simp)
  induction tasks with
  | nil => intro m hm; simpa using hm
  | cons t ts ih =>
      intro m hm
      exact ih _ (nodup_keys_projStep hm)

theorem nodup_keys_dayStep {m : List (Int × DayAcc)} {t : Task}
    (h : (m.map Prod.fst).Nodup) : ((dayStep m t).map Prod.fst).Nodup := by
  unfold dayStep
  cases hs : t.startDateTime with
  | none => exact h
  | some d =>
      cases hl : lookupA m d with
      | some v =>
          simp only [hl]
          simpa [keys_updateA] using h
      | none =>
          have hk : d ∉ m.map Prod.fst := lookupA_eq_none.1 hl
          simp only [hl]
          simp [List.nodup_append, h, hk]

theorem mem_keys_dayStep {m : List (Int × DayAcc)} {t : Task} {k : Int} :
    k ∈ (dayStep m t).map Prod.fst ↔
      k ∈ m.map Prod.fst ∨ t.startDateTime = some k := by
  unfold dayStep
  cases hs : t.startDateTime with
  | none => simp
  | some d =>
      cases hl : lookupA m d with
      | some v =>
          simp only [hl]
          rw [keys_updateA]
          have hmem : d ∈ m.map Prod.fst := by
            rw [← lookupA_isSome]
            simp [hl]
          constructor
          · exact fun hh => Or.inl hh
          · rintro (hh | hh)
            · exact hh
            · rw [show k = d from (Option.some.injEq .. ▸ hh).symm]
              exact hmem
      | none =>
          simp only [hl]
          simp [List.map_append]
          constructor
          · rintro (hh | rfl)
            · exact Or.inl hh
            · exact Or.inr rfl
          · rintro (hh | hh)
            · exact Or.inl hh
            · exact Or.inr hh.symm

theorem nodup_keys_dailyMap (tasks : List Task) :
    ((dailyMap tasks).map Prod.fst).Nodup := by
  suffices h : ∀ m, (m.map Prod.fst).Nodup →
      (((tasks.foldl dayStep m).map Prod.fst)).Nodup by
    exact h [] (by simp)
  induction tasks with
  | nil => intro m hm; simpa using hm
  | cons t ts ih =>
      intro m hm
      exact ih _ (nodup_keys_dayStep hm)

theorem mem_keys_dailyMap {tasks : List Task} {k : Int} :
    k ∈ (dailyMap tasks).map Prod.fst ↔
      ∃ t ∈ tasks, t.startDateTime = some k := by
  suffices h : ∀ (ts : List Task) (m : List (Int × DayAcc)),
      k ∈ ((ts.foldl dayStep m).map Prod.fst) ↔
        k ∈ m.map Prod.fst ∨ ∃ t ∈ ts, t.startDateTime = some k by
    simpa [dailyMap] using h tasks []
  intro ts
  induction ts with
  | nil => intro m; simp
  | cons t ts2 ih =>
      intro m
      rw [List.foldl_cons, ih, mem_keys_dayStep]
      simp only [List.mem_cons]
      constructor
      · rintro ((hh | hh) | ⟨t2, ht2, hh⟩)
        · exact Or.inl hh
        · exact Or.inr ⟨t, Or.inl rfl, hh⟩
        · exact Or.inr ⟨t2, Or.inr ht2, hh⟩
      · rintro (hh | ⟨t2, (rfl | ht2), hh⟩)
        · exact Or.inl (Or.inl hh)
        · exact Or.inl (Or.inr hh)
        · exact Or.inr ⟨t2, ht2, hh⟩

/-! ### Toolbox: zero-fill loop lemmas -/

theorem nodup_keys_fillLoop :
    ∀ (n : Nat) (m : List (Int × DayAcc)) (cur : Int),
      (m.map Prod.fst).Nodup → ((fillLoop m cur n).map Prod.fst).Nodup := by
  intro n
  induction n with
  | zero => intro m cur hm; simpa [fillLoop] using hm
  | succ n ih =>
      intro m cur hm
      rw [fillLoop]
      by_cases h : hasKeyA m cur
      · simpa [h] using ih _ _ hm
      · have hk : cur ∉ m.map Prod.fst := fun hmem =>
          h (by rwa [hasKeyA, lookupA_isSome])
        rw [if_neg h]
        refine ih _ _ ?_
        simp [List.nodup_append, hm, hk]

theorem mem_keys_fillLoop :
    ∀ (n : Nat) (m : List (Int × DayAcc)) (cur k : Int),
      k ∈ (fillLoop m cur n).map Prod.fst ↔
        k ∈ m.map Prod.fst ∨ (cur ≤ k ∧ k < cur + n) := by
  intro n
  induction n with
  | zero => intro m cur k; rw [fillLoop]; constructor
            <;> intro hh
            <;> [exact Or.inl hh; skip]
            <;> rcases hh with hh | hh
            <;> [exact hh; omega]
  | succ n ih =>
      intro m cur k
      rw [fillLoop]
      by_cases h : hasKeyA m cur
      · have hmem : cur ∈ m.map Prod.fst := by
          rw [← lookupA_isSome]
          simpa [hasKeyA] using h
        rw [if_pos h, ih]
        constructor
        · rintro (hh | hh)
          · exact Or.inl hh
          · right; omega
        · rintro (hh | hh)
          · exact Or.inl hh
          · by_cases hk : k = cur
            · subst hk; exact Or.inl hmem
            · right; omega
      · rw [if_neg h, ih, List.map_append, List.mem_append]
        have hsing : (k ∈ ([(cur, zeroDay)].map Prod.fst)) ↔ k = cur := by simp
        constructor
        · rintro ((hh | hh) | hh)
          · exact Or.inl hh
          · right
            rw [hsing.1 hh]
            omega
          · right; omega
        · rintro (hh | hh)
          · exact Or.inl (Or.inl hh)
          · by_cases hk : k = cur
            · subst hk
              exact Or.inl (Or.inr (by simp))
            · right; omega

theorem mem_fillLoop_val :
    ∀ (n : Nat) (m : List (Int × DayAcc)) (cur : Int) (p : Int × DayAcc),
      p ∈ fillLoop m cur n → p ∈ m ∨ p.2 = zeroDay := by
  intro n
  induction n with
  | zero => intro m cur p hp; exact Or.inl hp
  | succ n ih =>
      intro m cur p hp
      rw [fillLoop] at hp
      by_cases h : hasKeyA m cur
      · rw [if_pos h] at hp
        exact ih _ _ _ hp
      · rw [if_neg h] at hp
        rcases ih _ _ _ hp with hh | hh
        · rcases List.mem_append.1 hh with h1 | h1
          · exact Or.inl h1
          · right
            rw [List.mem_singleton.1 h1]
        · exact Or.inr hh

/-! ### Toolbox: weekly fold lemmas -/

theorem mem_keys_weekStep {wm : List (Int × DayAcc)} {p : Int × DayAcc} {k : Int} :
    k ∈ (weekStep wm p).map Prod.fst ↔
      k ∈ wm.map Prod.fst ∨ k = weekKeyOf p.1 := by
  unfold weekStep
  cases hl : lookupA wm (weekKeyOf p.1) with
  | some v =>
      simp only [hl]
      rw [keys_updateA]
      have hmem : weekKeyOf p.1 ∈ wm.map Prod.fst := by
        rw [← lookupA_isSome]
        simp [hl]
      constructor
      · exact fun hh => Or.inl hh
      · rintro (hh | rfl) <;> assumption
  | none =>
      simp only [hl]
      simp [List.map_append, or_comm]

theorem mem_keys_weekFold {k : Int} :
    ∀ (l : List (Int × DayAcc)) (wm : List (Int × DayAcc)),
      k ∈ ((l.foldl weekStep wm).map Prod.fst) ↔
        k ∈ wm.map Prod.fst ∨ ∃ p ∈ l, weekKeyOf p.1 = k := by
  intro l
  induction l with
  | nil => intro wm; simp
  | cons p l2 ih =>
      intro wm
      rw [List.foldl_cons, ih, mem_keys_weekStep]
      simp only [List.mem_cons]
      constructor
      · rintro ((hh | rfl) | ⟨q, hq, hh⟩)
        · exact Or.inl hh
        · exact Or.inr ⟨p, Or.inl rfl, rfl⟩
        · exact Or.inr ⟨q, Or.inr hq, hh⟩
      · rintro (hh | ⟨q, (rfl | hq), hh⟩)
        · exact Or.inl (Or.inl hh)
        · exact Or.inl (Or.inr hh.symm)
        · exact Or.inr ⟨q, hq, hh⟩


/-! ### Toolbox: rounding error bounds -/

theorem abs_toFixed2_sub (q : ℚ) : |toFixed2 q - q| ≤ 1 / 200 := by
  have h := abs_sub_round (q * 100)
  have h2 : toFixed2 q - q = -((q * 100 - (round (q * 100) : ℚ)) / 100) := by
    rw [toFixed2]; ring
  rw [h2, abs_neg, abs_div, abs_of_pos (show (0 : ℚ) < 100 by norm_num)]
  linarith

theorem abs_sum_toFixed2 (l : List ℕ) :
    |(l.map (fun (s : ℕ) => toFixed2 ((s : ℚ) / 3600))).sum - (l.sum : ℚ) / 3600| ≤
      (l.length : ℚ) / 200 := by
  induction l with
  | nil => simp
  | cons a l ih =>
      have h1 := abs_toFixed2_sub ((a : ℚ) / 3600)
      simp only [List.map_cons, List.sum_cons, List.length_cons]
      have heq : toFixed2 ((a : ℚ) / 3600) +
          (l.map (fun (s : ℕ) => toFixed2 ((s : ℚ) / 3600))).sum -
          ((a + l.sum : ℕ) : ℚ) / 3600 =
          (toFixed2 ((a : ℚ) / 3600) - (a : ℚ) / 3600) +
            ((l.map (fun (s : ℕ) => toFixed2 ((s : ℚ) / 3600))).sum -
              (l.sum : ℚ) / 3600) := by
        push_cast
        ring
      rw [heq]
      refine le_trans (abs_add _ _) ?_
      refine le_trans (add_le_add h1 ih) ?_
      rw [show ((l.length + 1 : ℕ) : ℚ) = (l.length : ℚ) + 1 by push_cast; ring]
      ring_nf
      linarith

/-! ### Toolbox: sortedness and stability of the embedded sorts -/

theorem sortedDays_pairwise (tasks : List Task) (s e : Int) :
    (sortedDays tasks s e).Pairwise (fun a b => a.1 ≤ b.1) :=
  List.sorted_insertionSort _ _

theorem sortedDays_perm (tasks : List Task) (s e : Int) :
    (sortedDays tasks s e).Perm (fillDays (dailyMap tasks) s e) :=
  List.perm_insertionSort _ _

/-- Stable insertion into a list that is pairwise sorted by the
lexicographic order (seconds descending, then original position
ascending), with the inserted element positioned before every element of
the list in the original order. -/
theorem pairwise_lex_orderedInsert {α : Type} (sec pos : α → ℕ) (x : α) (l : List α)
    (hl : l.Pairwise (fun a b => sec b < sec a ∨ (sec a = sec b ∧ pos a < pos b)))
    (hx : ∀ y ∈ l, pos x < pos y) :
    (List.orderedInsert (fun a b => sec b ≤ sec a) x l).Pairwise
      (fun a b => sec b < sec a ∨ (sec a = sec b ∧ pos a < pos b)) := by
  induction l with
  | nil => simp [List.orderedInsert]
  | cons y ys ih =>
      rw [List.orderedInsert]
      by_cases h : sec y ≤ sec x
      · rw [if_pos h]
        rw [List.pairwise_cons]
        refine ⟨?_, hl⟩
        intro z hz
        rcases List.mem_cons.1 hz with rfl | hz2
        · rcases lt_or_eq_of_le h with hlt | heq
          · exact Or.inl hlt
          · exact Or.inr ⟨heq.symm, hx z (List.mem_cons_self _ _)⟩
        · have hyz := (List.pairwise_cons.1 hl).1 z hz2
          have hzy : sec z ≤ sec y := by
            rcases hyz with hh | hh
            · exact le_of_lt hh
            · exact le_of_eq hh.1.symm
          rcases lt_or_eq_of_le (le_trans hzy h) with hlt | heq
          · exact Or.inl hlt
          · exact Or.inr ⟨heq.symm, hx z (List.mem_cons_of_mem _ hz2)⟩
      · rw [if_neg h]
        push_neg at h
        rw [List.pairwise_cons]
        constructor
        · intro w hw
          rcases (List.mem_orderedInsert _).1 hw with rfl | hw2
          · exact Or.inl h
          · exact (List.pairwise_cons.1 hl).1 w hw2
        · exact ih (List.pairwise_cons.1 hl).2
            (fun y2 hy2 => hx y2 (List.mem_cons_of_mem _ hy2))

/-- The stable insertion sort by seconds descending yields a list pairwise
sorted by (seconds descending, original position ascending): ties keep
their original relative order. -/
theorem pairwise_lex_insertionSort {α : Type} (sec pos : α → ℕ) (l : List α)
    (h : l.Pairwise (fun a b => pos a < pos b)) :
    (List.insertionSort (fun a b => sec b ≤ sec a) l).Pairwise
      (fun a b => sec b < sec a ∨ (sec a = sec b ∧ pos a < pos b)) := by
  induction l with
  | nil => simp [List.insertionSort]
  | cons x l ih =>
      rw [List.insertionSort]
      refine pairwise_lex_orderedInsert sec pos x _ (ih (List.pairwise_cons.1 h).2) ?_
      intro y hy
      exact (List.pairwise_cons.1 h).1 y ((List.mem_insertionSort _).1 hy)

/-- In an association list with distinct keys, the entries are pairwise
ordered by the position of their key. -/
theorem pairwise_idxOfKey {β : Type} (m : List (String × β))
    (h : (m.map Prod.fst).Nodup) :
    m.Pairwise (fun a b => idxOfKey m a.1 < idxOfKey m b.1) := by
  induction m with
  | nil => exact List.Pairwise.nil
  | cons p rest ih =>
      obtain ⟨k₀, v₀⟩ := p
      rw [List.map_cons, List.nodup_cons] at h
      rw [List.pairwise_cons]
      constructor
      · intro b hb
        have hbne : ¬(k₀ = b.1) := fun hh =>
          h.1 (hh ▸ List.mem_map.2 ⟨b, hb, rfl⟩)
        simp [idxOfKey, hbne]
      · have ihp := ih h.2
        refine List.Pairwise.imp_of_mem ?_ ihp
        intro a b ha hb hab
        have hane : ¬(k₀ = a.1) := fun hh =>
          h.1 (hh ▸ List.mem_map.2 ⟨a, ha, rfl⟩)
        have hbne : ¬(k₀ = b.1) := fun hh =>
          h.1 (hh ▸ List.mem_map.2 ⟨b, hb, rfl⟩)
        simp [idxOfKey, hane, hbne]
        omega


/-! ### Claim C4: weekly roll-up presence and week keys -/

theorem emod_sub_emod_add (a b : Int) : (a - a % 7 + b) % 7 = b % 7 := by
  rw [show a - a % 7 + b = b + 7 * (a / 7) from by omega, Int.add_mul_emod_self_left]

theorem getDay_weekKeyOf (d : Int) : getDay (weekKeyOf d) = 1 := by
  unfold weekKeyOf getDay
  by_cases h : (d + 4) % 7 = 0
  · rw [if_pos h]
    rw [show d - (d + 4) % 7 + -6 + 4 = (d + 4) - (d + 4) % 7 + -6 from by ring,
      emod_sub_emod_add]
    decide
  · rw [if_neg h]
    rw [show d - (d + 4) % 7 + 1 + 4 = (d + 4) - (d + 4) % 7 + 1 from by ring,
      emod_sub_emod_add]
    decide

theorem weekKeyOf_bounds (d : Int) : weekKeyOf d ≤ d ∧ d ≤ weekKeyOf d + 6 := by
  unfold weekKeyOf getDay
  have h1 : 0 ≤ (d + 4) % 7 := Int.emod_nonneg _ (by norm_num)
  have h2 : (d + 4) % 7 < 7 := Int.emod_lt_of_pos _ (by norm_num)
  by_cases h : (d + 4) % 7 = 0
  · rw [if_pos h]; omega
  · rw [if_neg h]; omega

/-- C4: `weeklyHours` is present iff the inclusive day count
`endDate - startDate + 1` exceeds 14; when present, every `weekStart` key
is the ISO week Monday of its member days: it is a Monday (`getDay = 1`),
it arises as the Monday key of some daily entry, and every daily entry
folded into it lies within the six days following it (Sunday having been
mapped to the prior Monday by the day-of-week adjustment). -/
theorem weeklyHours_iff_range_exceeds_14 (tasks : List Task) (startDate endDate : Int) :
    ((computeStatistics tasks startDate endDate).weeklyHours.isSome ↔
      14 < endDate - startDate + 1) ∧
    ∀ w ∈ (computeStatistics tasks startDate endDate).weeklyHours.getD [],
      getDay w.weekStart = 1 ∧
      (∃ d ∈ (computeStatistics tasks startDate endDate).dailyHours.map DailyOut.date,
        weekKeyOf d = w.weekStart) ∧
      ∀ d ∈ (computeStatistics tasks startDate endDate).dailyHours.map DailyOut.date,
        weekKeyOf d = w.weekStart → w.weekStart ≤ d ∧ d ≤ w.weekStart + 6 := by
  constructor
  · simp only [computeStatistics]
    by_cases h : 14 < endDate - startDate + 1 <;> simp [h]
  · intro w hw
    have hdates : (computeStatistics tasks startDate endDate).dailyHours.map DailyOut.date =
        (sortedDays tasks startDate endDate).map Prod.fst := by
      simp [computeStatistics, dayFmt, List.map_map, Function.comp]
    by_cases h : 14 < endDate - startDate + 1
    swap
    · simp [computeStatistics, h] at hw
    simp only [computeStatistics, if_pos h, Option.getD_some] at hw
    obtain ⟨p, hp, rfl⟩ := List.mem_map.1 hw
    have hp2 : p ∈ (sortedDays tasks startDate endDate).foldl weekStep [] :=
      (List.mem_insertionSort _).1 hp
    have hk : p.1 ∈ ((sortedDays tasks startDate endDate).foldl weekStep []).map Prod.fst :=
      List.mem_map.2 ⟨p, hp2, rfl⟩
    rcases (mem_keys_weekFold _ _).1 hk with h0 | ⟨q, hq, hqk⟩
    · simp at h0
    refine ⟨?_, ?_, ?_⟩
    · rw [show (weekFmt p).weekStart = p.1 from rfl, ← hqk]
      exact getDay_weekKeyOf q.1
    · refine ⟨q.1, ?_, ?_⟩
      · rw [hdates]
        exact List.mem_map.2 ⟨q, hq, rfl⟩
      · exact hqk
    · intro d hd hdk
      have hb := weekKeyOf_bounds d
      rw [show (weekFmt p).weekStart = p.1 from rfl] at hdk ⊢
      omega


/-- Witness for C4 at the empty task list over the 20-day range day 0 ..
day 19: `weeklyHours` is present and the first week key (day -3) is a
Monday. -/
theorem weeklyHours_iff_range_exceeds_14_witness :
    ((computeStatistics [] 0 19).weeklyHours.isSome ↔ 14 < (19 : Int) - 0 + 1) ∧
    getDay (weekFmt ((-3 : Int), zeroDay)).weekStart = 1 := by
  have h := weeklyHours_iff_range_exceeds_14 [] 0 19
  refine ⟨h.1, ?_⟩
  refine (h.2 (weekFmt ((-3 : Int), zeroDay)) ?_).1
  simp [computeStatistics, weeklyOf, sortedDays, fillDays, fillLoop, dailyMap, hasKeyA, lookupA,
    weekStep, weekKeyOf, getDay, zeroDay, List.insertionSort, List.orderedInsert]


/-! ### Claim C7: tasks without a start date -/

theorem lookupA_append_self {κ β : Type} [DecidableEq κ] {m : List (κ × β)} {k : κ}
    {v : β} (h : lookupA m k = none) : lookupA (m ++ [(k, v)]) k = some v := by
  induction m with
  | nil => simp [lookupA]
  | cons p rest ih =>
      obtain ⟨k₀, v₀⟩ := p
      by_cases hk : k₀ = k
      · subst hk; simp [lookupA] at h
      · simp [lookupA, hk] at h ⊢
        exact ih h

theorem dailyMap_append_undated (tasks : List Task) {t : Task}
    (h : t.startDateTime = none) : dailyMap (tasks ++ [t]) = dailyMap tasks := by
  unfold dailyMap
  rw [List.foldl_append]
  simp [dayStep, h]

theorem projectMap_append (tasks : List Task) (t : Task) :
    projectMap (tasks ++ [t]) = projStep (projectMap tasks) t := by
  unfold projectMap
  rw [List.foldl_append]
  rfl

theorem rawSecOf_append (tasks : List Task) (t : Task) :
    rawSecOf (tasks ++ [t]) (projKey t) = rawSecOf tasks (projKey t) + t.duration := by
  unfold rawSecOf
  rw [projectMap_append]
  unfold projStep
  cases h : lookupA (projectMap tasks) (projKey t) with
  | none =>
      rw [lookupA_append_self h]
      simp
  | some v =>
      rw [lookupA_updateA_self h]

/-- C7: a task whose `startDateTime` is absent contributes to no
`dailyHours` entry (and hence to no `weeklyHours` entry), yet its duration
is still counted in `totalHours`, in the billable/non-billable split, and
in its project's `projectBreakdown` entry. -/
theorem undated_task_counted_in_totals_only
    (tasks : List Task) (t : Task) (startDate endDate : Int)
    (h : t.startDateTime = none) :
    (computeStatistics (tasks ++ [t]) startDate endDate).dailyHours =
      (computeStatistics tasks startDate endDate).dailyHours ∧
    (computeStatistics (tasks ++ [t]) startDate endDate).weeklyHours =
      (computeStatistics tasks startDate endDate).weeklyHours ∧
    (computeStatistics (tasks ++ [t]) startDate endDate).totalHours =
      toFixed2 (((totalSeconds tasks + t.duration : ℕ) : ℚ) / 3600) ∧
    (computeStatistics (tasks ++ [t]) startDate endDate).billableHours =
      toFixed2 (((billableSeconds tasks + if t.billable then t.duration else 0 : ℕ) : ℚ) / 3600) ∧
    (computeStatistics (tasks ++ [t]) startDate endDate).nonBillableHours =
      toFixed2 (((nonBillableSeconds tasks + if t.billable then 0 else t.duration : ℕ) : ℚ) / 3600) ∧
    rawSecOf (tasks ++ [t]) (projKey t) = rawSecOf tasks (projKey t) + t.duration ∧
    ∃ p ∈ (computeStatistics (tasks ++ [t]) startDate endDate).projectBreakdown,
      p.projectId = projKey t ∧
      p.hours = toFixed2 (((rawSecOf tasks (projKey t) + t.duration : ℕ) : ℚ) / 3600) := by
  have hdm := dailyMap_append_undated tasks h
  refine ⟨?_, ?_, ?_, ?_, ?_, rawSecOf_append tasks t, ?_⟩
  · simp [computeStatistics, sortedDays, fillDays, hdm]
  · simp [computeStatistics, sortedDays, fillDays, hdm]
  · simp [computeStatistics, totalSeconds]
  · cases hb : t.billable <;>
      simp [computeStatistics, billableSeconds, List.filter_append, hb]
  · cases hb : t.billable <;>
      simp [computeStatistics, nonBillableSeconds, List.filter_append, hb]
  · -- the project entry for t's key in the breakdown
    have hraw := rawSecOf_append tasks t
    cases hv : lookupA (projectMap (tasks ++ [t])) (projKey t) with
    | none =>
        exfalso
        unfold rawSecOf at hraw
        rw [projectMap_append] at hv
        unfold projStep at hv
        cases h2 : lookupA (projectMap tasks) (projKey t) with
        | none => rw [h2, lookupA_append_self h2] at hv; exact Option.noConfusion hv
        | some v => rw [h2, lookupA_updateA_self h2] at hv; exact Option.noConfusion hv
    | some v =>
        have hmem : (projKey t, v) ∈ projectMap (tasks ++ [t]) := lookupA_mem hv
        have hmem2 : (projKey t, v) ∈
            List.insertionSort (fun a b : String × ProjAcc => b.2.totalSec ≤ a.2.totalSec)
              (projectMap (tasks ++ [t])) := (List.mem_insertionSort _).2 hmem
        refine ⟨breakdownFmt (computeStatistics (tasks ++ [t]) startDate endDate).totalHours
          (projKey t, v), ?_, rfl, ?_⟩
        · simp only [computeStatistics, projectBreakdownOf]
          exact List.mem_map.2 ⟨(projKey t, v), hmem2, rfl⟩
        · have hvsec : v.totalSec = rawSecOf tasks (projKey t) + t.duration := by
            unfold rawSecOf at hraw
            rw [hv] at hraw
            exact hraw
          simp [breakdownFmt, hvsec]


/-! ### Claim C2 (amended): the zero-filled daily series -/

theorem mem_intRange {s e k : Int} : k ∈ intRange s e ↔ s ≤ k ∧ k ≤ e := by
  simp only [intRange, List.mem_map, List.mem_range]
  constructor
  · rintro ⟨i, hi, rfl⟩
    omega
  · rintro ⟨h1, h2⟩
    exact ⟨(k - s).toNat, by omega, by omega⟩

theorem intRange_sorted (s e : Int) : (intRange s e).Pairwise (· < ·) := by
  unfold intRange
  refine List.Pairwise.map _ ?_ (List.pairwise_lt_range _)
  intro a b hab
  omega

theorem intRange_nodup (s e : Int) : (intRange s e).Nodup :=
  (intRange_sorted s e).imp ne_of_lt

theorem keys_sortedDays_eq_intRange
    (tasks : List Task) (startDate endDate : Int)
    (hin : ∀ t ∈ tasks, ∀ d, t.startDateTime = some d → startDate ≤ d ∧ d ≤ endDate) :
    (sortedDays tasks startDate endDate).map Prod.fst = intRange startDate endDate := by
  have hperm : ((sortedDays tasks startDate endDate).map Prod.fst).Perm
      ((fillDays (dailyMap tasks) startDate endDate).map Prod.fst) :=
    (sortedDays_perm tasks startDate endDate).map Prod.fst
  have hnodupF : ((fillDays (dailyMap tasks) startDate endDate).map Prod.fst).Nodup := by
    unfold fillDays
    exact nodup_keys_fillLoop _ _ _ (nodup_keys_dailyMap tasks)
  have hmemF : ∀ k, k ∈ (fillDays (dailyMap tasks) startDate endDate).map Prod.fst ↔
      startDate ≤ k ∧ k ≤ endDate := by
    intro k
    unfold fillDays
    rw [mem_keys_fillLoop]
    constructor
    · rintro (hk | hk)
      · obtain ⟨t, ht, hd⟩ := mem_keys_dailyMap.1 hk
        exact hin t ht k hd
      · omega
    · intro hk
      right
      omega
  have hperm2 : ((fillDays (dailyMap tasks) startDate endDate).map Prod.fst).Perm
      (intRange startDate endDate) := by
    refine (List.perm_ext_iff_of_nodup hnodupF (intRange_nodup _ _)).2 ?_
    intro k
    rw [hmemF, mem_intRange]
  have hsorted1 : ((sortedDays tasks startDate endDate).map Prod.fst).Sorted (· ≤ ·) :=
    List.pairwise_map.2 (sortedDays_pairwise tasks startDate endDate)
  have hsorted2 : (intRange startDate endDate).Sorted (· ≤ ·) :=
    (intRange_sorted startDate endDate).imp le_of_lt
  exact List.eq_of_perm_of_sorted (hperm.trans hperm2) hsorted1 hsorted2

/-- C2 (amended): when every dated task starts within `[startDate,
endDate]`, the `dailyHours` series lists exactly the calendar days
`startDate … endDate` in chronological order with no gaps (so its length
is the inclusive day count), and every day no task starts on carries a
zero-filled entry.  (Unamended, the claim fails: a task dated outside the
range inserts an extra entry, see the counterexample.) -/
theorem daily_series_gap_free
    (tasks : List Task) (startDate endDate : Int)
    (hin : ∀ t ∈ tasks, ∀ d, t.startDateTime = some d → startDate ≤ d ∧ d ≤ endDate) :
    (computeStatistics tasks startDate endDate).dailyHours.map DailyOut.date =
      intRange startDate endDate ∧
    (computeStatistics tasks startDate endDate).dailyHours.length =
      (endDate - startDate + 1).toNat ∧
    ∀ entry ∈ (computeStatistics tasks startDate endDate).dailyHours,
      (∀ t ∈ tasks, t.startDateTime ≠ some entry.date) →
      entry.hours = 0 ∧ entry.billableHours = 0 ∧ entry.nonBillableHours = 0 ∧
        entry.breakHours = 0 := by
  have hdates : (computeStatistics tasks startDate endDate).dailyHours.map DailyOut.date =
      (sortedDays tasks startDate endDate).map Prod.fst := by
    simp [computeStatistics, dayFmt, List.map_map, Function.comp]
  have hkeys := keys_sortedDays_eq_intRange tasks startDate endDate hin
  refine ⟨hdates.trans hkeys, ?_, ?_⟩
  · have hlen := congrArg List.length (hdates.trans hkeys)
    simpa [intRange] using hlen
  · intro entry hentry hno
    simp only [computeStatistics] at hentry
    obtain ⟨p, hp, rfl⟩ := List.mem_map.1 hentry
    have hpF : p ∈ fillDays (dailyMap tasks) startDate endDate :=
      (sortedDays_perm tasks startDate endDate).mem_iff.1 hp
    rcases mem_fillLoop_val _ _ _ _ hpF with hpd | hz
    · exfalso
      have hk : p.1 ∈ (dailyMap tasks).map Prod.fst := List.mem_map.2 ⟨p, hpd, rfl⟩
      obtain ⟨t, ht, hd⟩ := mem_keys_dailyMap.1 hk
      exact hno t ht hd
    · simp [dayFmt, hz, zeroDay, toFixed2]


/-- Witness for C2 (amended) at one in-range task over the two-day range
day 0 .. day 1. -/
theorem daily_series_gap_free_witness :
    (computeStatistics [⟨3600, 0, true, none, none, some 0⟩] 0 1).dailyHours.map
      DailyOut.date = intRange 0 1 ∧
    (computeStatistics [⟨3600, 0, true, none, none, some 0⟩] 0 1).dailyHours.length =
      ((1 : Int) - 0 + 1).toNat := by
  have h := daily_series_gap_free [⟨3600, 0, true, none, none, some 0⟩] 0 1 ?hin
  case hin =>
    intro t ht d hd
    rw [List.mem_singleton] at ht
    subst ht
    simp at hd
    omega
  exact ⟨h.1, h.2.1⟩

/-! ### Claim C1 (amended): sums agree up to accumulated rounding -/

theorem abs_rounded_sum (L : List ℕ) :
    |(L.map (fun (s : ℕ) => toFixed2 ((s : ℚ) / 3600))).sum - toFixed2 ((L.sum : ℚ) / 3600)| ≤
      ((L.length + 1 : ℕ) : ℚ) / 200 := by
  have h1 := abs_sum_toFixed2 L
  have h2 := abs_toFixed2_sub ((L.sum : ℚ) / 3600)
  have heq : (L.map (fun (s : ℕ) => toFixed2 ((s : ℚ) / 3600))).sum -
      toFixed2 ((L.sum : ℚ) / 3600) =
      ((L.map (fun (s : ℕ) => toFixed2 ((s : ℚ) / 3600))).sum - (L.sum : ℚ) / 3600) +
        ((L.sum : ℚ) / 3600 - toFixed2 ((L.sum : ℚ) / 3600)) := by ring
  rw [heq]
  refine le_trans (abs_add _ _) ?_
  rw [abs_sub_comm] at h2
  refine le_trans (add_le_add h1 h2) ?_
  push_cast
  ring_nf
  linarith

theorem datedSeconds_eq_totalSeconds {tasks : List Task}
    (hdated : ∀ t ∈ tasks, t.startDateTime.isSome = true) :
    datedSeconds tasks = totalSeconds tasks := by
  unfold datedSeconds totalSeconds
  rw [List.filter_eq_self.2 hdated]

/-- C1 (amended): for task lists in which every task carries a
`startDateTime`, the sum of the rounded daily hours differs from
`totalHours` by at most `0.005 × (n + 1)` where `n` is the number of
`dailyHours` entries, and likewise for `projectBreakdown` (the latter even
without the hypothesis).  The fixed tolerance 0.01 of the unamended claim
fails once three or more entries round in the same direction (see the
counterexample). -/
theorem sums_within_accumulated_rounding
    (tasks : List Task) (startDate endDate : Int)
    (hdated : ∀ t ∈ tasks, t.startDateTime.isSome = true) :
    |((computeStatistics tasks startDate endDate).dailyHours.map DailyOut.hours).sum -
        (computeStatistics tasks startDate endDate).totalHours| ≤
      (((computeStatistics tasks startDate endDate).dailyHours.length + 1 : ℕ) : ℚ) / 200 ∧
    |((computeStatistics tasks startDate endDate).projectBreakdown.map
          BreakdownEntry.hours).sum -
        (computeStatistics tasks startDate endDate).totalHours| ≤
      (((computeStatistics tasks startDate endDate).projectBreakdown.length + 1 : ℕ) : ℚ) / 200 := by
  constructor
  · have hdmap : (computeStatistics tasks startDate endDate).dailyHours.map DailyOut.hours =
        ((sortedDays tasks startDate endDate).map (fun p => p.2.totalSec)).map
          (fun (s : ℕ) => toFixed2 ((s : ℚ) / 3600)) := by
      simp only [computeStatistics, List.map_map]
      rfl
    have hsumd : ((sortedDays tasks startDate endDate).map (fun p => p.2.totalSec)).sum =
        totalSeconds tasks := by
      have hperm := (sortedDays_perm tasks startDate endDate).map (fun p => p.2.totalSec)
      rw [hperm.sum_eq]
      have hfill : valSum DayAcc.totalSec (fillDays (dailyMap tasks) startDate endDate) =
          valSum DayAcc.totalSec (dailyMap tasks) := by
        unfold fillDays
        exact valSum_fillLoop DayAcc.totalSec rfl _ _ _
      have : valSum DayAcc.totalSec (fillDays (dailyMap tasks) startDate endDate) =
          totalSeconds tasks := by
        rw [hfill, valSum_dailyMap, datedSeconds_eq_totalSeconds hdated]
      exact this
    have hth : (computeStatistics tasks startDate endDate).totalHours =
        toFixed2 ((totalSeconds tasks : ℚ) / 3600) := rfl
    have hlen : (computeStatistics tasks startDate endDate).dailyHours.length =
        ((sortedDays tasks startDate endDate).map (fun p => p.2.totalSec)).length := by
      simp [computeStatistics]
    rw [hdmap, hth, ← hsumd, hlen]
    exact abs_rounded_sum _
  · have hpmap : (computeStatistics tasks startDate endDate).projectBreakdown.map
        BreakdownEntry.hours =
        ((List.insertionSort (fun a b : String × ProjAcc => b.2.totalSec ≤ a.2.totalSec)
            (projectMap tasks)).map (fun p => p.2.totalSec)).map
          (fun (s : ℕ) => toFixed2 ((s : ℚ) / 3600)) := by
      simp only [computeStatistics, projectBreakdownOf, List.map_map]
      rfl
    have hsump : ((List.insertionSort (fun a b : String × ProjAcc =>
          b.2.totalSec ≤ a.2.totalSec) (projectMap tasks)).map
            (fun p => p.2.totalSec)).sum = totalSeconds tasks := by
      have hperm := (List.perm_insertionSort
        (fun a b : String × ProjAcc => b.2.totalSec ≤ a.2.totalSec)
        (projectMap tasks)).map (fun p => p.2.totalSec)
      rw [hperm.sum_eq]
      exact valSum_projectMap tasks
    have hth : (computeStatistics tasks startDate endDate).totalHours =
        toFixed2 ((totalSeconds tasks : ℚ) / 3600) := rfl
    have hlen : (computeStatistics tasks startDate endDate).projectBreakdown.length =
        ((List.insertionSort (fun a b : String × ProjAcc => b.2.totalSec ≤ a.2.totalSec)
            (projectMap tasks)).map (fun p => p.2.totalSec)).length := by
      simp [computeStatistics, projectBreakdownOf]
    rw [hpmap, hth, ← hsump, hlen]
    exact abs_rounded_sum _


/-- Witness for C1 (amended) at `fiveTinyTasks` (all dated). -/
theorem sums_within_accumulated_rounding_witness :
    |((computeStatistics fiveTinyTasks 0 4).dailyHours.map DailyOut.hours).sum -
        (computeStatistics fiveTinyTasks 0 4).totalHours| ≤
      (((computeStatistics fiveTinyTasks 0 4).dailyHours.length + 1 : ℕ) : ℚ) / 200 :=
  (sums_within_accumulated_rounding fiveTinyTasks 0 4 (by decide)).1

/-! ### Claim C5: breakdown sorted by raw seconds, stable on ties -/

/-- C5: `projectBreakdown` is pairwise ordered by raw accumulated seconds
strictly descending, with ties ordered by the position of the project's
first-encountered entry in the aggregation map (insertion order). -/
theorem projectBreakdown_sorted_desc_stable (tasks : List Task) (startDate endDate : Int) :
    (computeStatistics tasks startDate endDate).projectBreakdown.Pairwise
      (fun x y => rawSecOf tasks y.projectId < rawSecOf tasks x.projectId ∨
        (rawSecOf tasks x.projectId = rawSecOf tasks y.projectId ∧
          idxOfKey (projectMap tasks) x.projectId <
            idxOfKey (projectMap tasks) y.projectId)) := by
  have hnd := nodup_keys_projectMap tasks
  have hpos := pairwise_idxOfKey (projectMap tasks) hnd
  have hlex := pairwise_lex_insertionSort (fun p : String × ProjAcc => p.2.totalSec)
    (fun p : String × ProjAcc => idxOfKey (projectMap tasks) p.1) (projectMap tasks) hpos
  simp only [computeStatistics, projectBreakdownOf]
  rw [List.pairwise_map]
  refine List.Pairwise.imp_of_mem ?_ hlex
  intro a b ha hb hab
  have haraw : rawSecOf tasks (breakdownFmt (toFixed2 ((totalSeconds tasks : ℚ) / 3600))
      a).projectId = a.2.totalSec := by
    have hmem : a ∈ projectMap tasks := (List.mem_insertionSort _).1 ha
    have hl : lookupA (projectMap tasks) a.1 = some a.2 := by
      obtain ⟨k, v⟩ := a
      exact mem_lookupA hnd hmem
    simp [rawSecOf, breakdownFmt, hl]
  have hbraw : rawSecOf tasks (breakdownFmt (toFixed2 ((totalSeconds tasks : ℚ) / 3600))
      b).projectId = b.2.totalSec := by
    have hmem : b ∈ projectMap tasks := (List.mem_insertionSort _).1 hb
    have hl : lookupA (projectMap tasks) b.1 = some b.2 := by
      obtain ⟨k, v⟩ := b
      exact mem_lookupA hnd hmem
    simp [rawSecOf, breakdownFmt, hl]
  rw [haraw, hbraw]
  exact hab

/-! ### Claim C6 (amended): percentage formula and bounds -/

theorem round_mono_q {q1 q2 : ℚ} (h : q1 ≤ q2) : round q1 ≤ round q2 := by
  rw [round_eq, round_eq]
  exact Int.floor_le_floor (by linarith)

theorem round_nonneg_q {q : ℚ} (h : 0 ≤ q) : 0 ≤ round q := by
  have := round_mono_q h
  rwa [round_zero] at this

theorem toFixed2_nonneg {q : ℚ} (h : 0 ≤ q) : 0 ≤ toFixed2 q := by
  unfold toFixed2
  have h2 : (0 : ℤ) ≤ round (q * 100) := round_nonneg_q (by linarith)
  have h3 : (0 : ℚ) ≤ (round (q * 100) : ℤ) := by exact_mod_cast h2
  linarith

theorem toFixed2_mono {q1 q2 : ℚ} (h : q1 ≤ q2) : toFixed2 q1 ≤ toFixed2 q2 := by
  unfold toFixed2
  have h2 : round (q1 * 100) ≤ round (q2 * 100) := round_mono_q (by linarith)
  have h3 : ((round (q1 * 100) : ℤ) : ℚ) ≤ ((round (q2 * 100) : ℤ) : ℚ) := by
    exact_mod_cast h2
  linarith

theorem mem_le_valSum {κ β : Type} {m : List (κ × β)} {q : κ × β} (g : β → ℕ)
    (h : q ∈ m) : g q.2 ≤ valSum g m := by
  unfold valSum
  exact List.single_le_sum (fun x _ => Nat.zero_le x) _ (List.mem_map.2 ⟨q, h, rfl⟩)

/-- C6 (amended): every `projectBreakdown` percentage lies in `[0, 100]`
and equals `round(hours / totalHours * 100)` on the rounded values, with 0
when `totalHours` is 0; the percentages need not sum to at most 100 (see
the counterexample, where five equal projects each round up to 33%). -/
theorem percentage_bounds_and_formula (tasks : List Task) (startDate endDate : Int) :
    (∀ p ∈ (computeStatistics tasks startDate endDate).projectBreakdown,
      0 ≤ p.percentage ∧ p.percentage ≤ 100) ∧
    ((computeStatistics tasks startDate endDate).totalHours = 0 →
      ∀ p ∈ (computeStatistics tasks startDate endDate).projectBreakdown,
        p.percentage = 0) ∧
    (0 < (computeStatistics tasks startDate endDate).totalHours →
      ∀ p ∈ (computeStatistics tasks startDate endDate).projectBreakdown,
        p.percentage =
          round (p.hours / (computeStatistics tasks startDate endDate).totalHours * 100)) := by
  have hbd : ∀ p ∈ (computeStatistics tasks startDate endDate).projectBreakdown,
      ∃ q, q ∈ projectMap tasks ∧
        p = breakdownFmt (toFixed2 ((totalSeconds tasks : ℚ) / 3600)) q := by
    intro p hp
    simp only [computeStatistics, projectBreakdownOf] at hp
    obtain ⟨q, hq, rfl⟩ := List.mem_map.1 hp
    exact ⟨q, (List.mem_insertionSort _).1 hq, rfl⟩
  refine ⟨?_, ?_, ?_⟩
  · intro p hp
    obtain ⟨q, hq, rfl⟩ := hbd p hp
    by_cases h0 : 0 < toFixed2 ((totalSeconds tasks : ℚ) / 3600)
    · have hhours0 : (0 : ℚ) ≤ toFixed2 ((q.2.totalSec : ℚ) / 3600) :=
        toFixed2_nonneg (by positivity)
      have hsec : q.2.totalSec ≤ totalSeconds tasks := by
        have := mem_le_valSum ProjAcc.totalSec hq
        rwa [valSum_projectMap] at this
      have hle : toFixed2 ((q.2.totalSec : ℚ) / 3600) ≤
          toFixed2 ((totalSeconds tasks : ℚ) / 3600) := by
        refine toFixed2_mono ?_
        have hc : ((q.2.totalSec : ℕ) : ℚ) ≤ ((totalSeconds tasks : ℕ) : ℚ) := by
          exact_mod_cast hsec
        linarith
      have hdiv : toFixed2 ((q.2.totalSec : ℚ) / 3600) /
          toFixed2 ((totalSeconds tasks : ℚ) / 3600) ≤ 1 :=
        (div_le_one h0).2 hle
      have hdiv0 : 0 ≤ toFixed2 ((q.2.totalSec : ℚ) / 3600) /
          toFixed2 ((totalSeconds tasks : ℚ) / 3600) := div_nonneg hhours0 (le_of_lt h0)
      constructor
      · simp only [breakdownFmt, if_pos h0]
        exact round_nonneg_q (by linarith)
      · simp only [breakdownFmt, if_pos h0]
        have h100 : toFixed2 ((q.2.totalSec : ℚ) / 3600) /
            toFixed2 ((totalSeconds tasks : ℚ) / 3600) * 100 ≤ 100 := by linarith
        refine le_trans (round_mono_q h100) ?_
        rw [show (100 : ℚ) = ((100 : ℤ) : ℚ) by norm_num, round_intCast]
    · simp only [breakdownFmt, if_neg h0]
      exact ⟨le_refl 0, by norm_num⟩
  · intro h0 p hp
    obtain ⟨q, hq, rfl⟩ := hbd p hp
    have h0q : ¬(0 < toFixed2 ((totalSeconds tasks : ℚ) / 3600)) := by
      rw [show (computeStatistics tasks startDate endDate).totalHours =
        toFixed2 ((totalSeconds tasks : ℚ) / 3600) from rfl] at h0
      rw [h0]
      exact lt_irrefl 0
    simp only [breakdownFmt, if_neg h0q]
  · intro h0 p hp
    obtain ⟨q, hq, rfl⟩ := hbd p hp
    have h0q : 0 < toFixed2 ((totalSeconds tasks : ℚ) / 3600) := h0
    simp only [breakdownFmt, if_pos h0q]
    rfl



/-- Witness for C6 (amended): one 17-second task rounds to `totalHours = 0`
and its project's percentage is 0. -/
theorem percentage_bounds_and_formula_witness :
    (breakdownFmt (computeStatistics [⟨17, 0, true, none, none, some 0⟩] 0 0).totalHours
        ("unknown", ⟨"Unknown Project", none, 17, 17, 0, 1⟩)).percentage = 0 := by
  have h := percentage_bounds_and_formula [⟨17, 0, true, none, none, some 0⟩] 0 0
  have h0 : (computeStatistics [⟨17, 0, true, none, none, some 0⟩] 0 0).totalHours = 0 := by
    show toFixed2 ((totalSeconds [⟨17, 0, true, none, none, some 0⟩] : ℚ) / 3600) = 0
    rw [show totalSeconds [⟨17, 0, true, none, none, some 0⟩] = 17 from rfl]
    rw [toFixed2, round_eq]
    norm_num
  refine h.2.1 h0 _ ?_
  simp [computeStatistics, projectBreakdownOf, projectMap, projStep, lookupA, jsOrS,
    projKey, projTitle, totalSeconds, List.insertionSort, List.orderedInsert]


/-- Witness for C7 at a concrete undated task appended to the empty list. -/
theorem undated_task_counted_in_totals_only_witness :
    (computeStatistics ([] ++ [⟨3600, 0, true, none, none, none⟩]) 0 0).dailyHours =
      (computeStatistics [] 0 0).dailyHours ∧
    rawSecOf ([] ++ [⟨3600, 0, true, none, none, none⟩])
        (projKey ⟨3600, 0, true, none, none, none⟩) =
      rawSecOf [] (projKey ⟨3600, 0, true, none, none, none⟩) + 3600 := by
  have h := undated_task_counted_in_totals_only [] ⟨3600, 0, true, none, none, none⟩ 0 0 rfl
  exact ⟨h.1, h.2.2.2.2.2.1⟩

end Timesheet
